import Mathlib

/-!
Shallow embedding of the bibliographic-pipeline core of the repository
(`src/utils/normalizer.ts`, `src/utils/paperFetcher.ts`, `src/utils/search.ts`)
and proofs about the claims of its specification.

JavaScript strings are modelled as Lean `String`/`List Char`; JS `number` values
holding years and integer identifiers are modelled as `Int`; optional object
fields are modelled as `Option`; JS truthiness of an optional string
(`undefined`, `null` and `""` are falsy) is modelled by `jsTruthy`.
Case conversion is modelled on the ASCII range (`Char.toLower`/`Char.toUpper`),
which matches `toLowerCase`/`toUpperCase` on all strings appearing in the
repository's data paths that the claims exercise.
-/

namespace Spec2Proof

/-- JS `\s` whitespace class, restricted to the ASCII range. -/
def isWsChar (c : Char) : Bool :=
  c = ' ' || c = '\t' || c = '\n' || c = '\r' || c = '\x0b' || c = '\x0c'

/-- JS `String.prototype.trim` on a character list. -/
def jsTrimL (l : List Char) : List Char :=
  ((l.dropWhile isWsChar).reverse.dropWhile isWsChar).reverse

/-- JS `String.prototype.trim`. -/
def jsTrim (s : String) : String :=
  (jsTrimL s.toList).asString

/-- JS `String.prototype.toLowerCase` (ASCII). -/
def jsToLower (s : String) : String :=
  (s.toList.map Char.toLower).asString

/-- JS `String.prototype.toUpperCase` (ASCII) on a single character. -/
def jsToUpperChar (c : Char) : Char := Char.toUpper c

/-- Substring test on character lists (JS `String.prototype.includes`). -/
def jsIncludesL (needle : List Char) : List Char → Bool
  | [] => needle.isEmpty
  | c :: rest => needle.isPrefixOf (c :: rest) || jsIncludesL needle rest

/-- JS `String.prototype.includes` (substring test). -/
def jsIncludes (hay needle : String) : Bool :=
  jsIncludesL needle.toList hay.toList

/-- JS `hay.toLowerCase().includes(needle)` as used throughout the normalizer. -/
def jsIncludesLower (hay needle : String) : Bool :=
  jsIncludes (jsToLower hay) needle

/-- Splitting a character list at every character satisfying `p`;
models the JS `String.prototype.split` with a single-character-class regex
(splitting on each occurrence, producing empty segments between adjacent
separators). -/
def splitOnP (p : Char → Bool) : List Char → List (List Char)
  | [] => [[]]
  | c :: rest =>
    if p c then
      [] :: splitOnP p rest
    else
      match splitOnP p rest with
      | [] => [[c]]
      | seg :: segs => (c :: seg) :: segs

/-- JS `split(/[-\s]+/).filter(Boolean)` / `split(/\s+/).filter(Boolean)`:
splitting on each separator character and dropping empty segments is the same
as splitting on separator runs and dropping empty segments. -/
def tokensOf (p : Char → Bool) (l : List Char) : List (List Char) :=
  (splitOnP p l).filter (fun seg => seg ≠ [])

/-- JS truthiness of `string | undefined`: `undefined` and `""` are falsy. -/
def jsTruthy (o : Option String) : Bool :=
  o.getD "" ≠ ""

/-- JS truthiness of `string[] | undefined` length tests (`arr?.length`). -/
def jsArrTruthy (o : Option (List String)) : Bool :=
  (o.getD []) ≠ []

/-! ## Data model (`src/utils/types.ts`) -/

/-- `PaperLinks`; a `none` field models an absent key (after `cleanLinks`
no key holds an empty string). -/
structure PaperLinks where
  pubmed : Option String := none
  doi : Option String := none
  pmc : Option String := none
deriving DecidableEq, Repr

/-- `PaperFlags`; a `none` field models an omitted key ("unknown"). -/
structure PaperFlags where
  open_access : Option Bool := none
  has_fulltext : Option Bool := none
deriving DecidableEq, Repr

/-- `RawPaper` (`src/utils/types.ts`). `year` is `Int` (a JS number holding an
integer); `setting` is modelled as an optional string whose values range over
the four literals of the TS union type. -/
structure RawPaper where
  id : String
  pmid : Option String := none
  doi : Option String := none
  pmcid : Option String := none
  title : String
  authors : List String := []
  journal : String := ""
  year : Int
  date : Option String := none
  abstract : String := ""
  mesh : Option (List String) := none
  keywords : Option (List String) := none
  domains : Option (List String) := none
  setting : Option String := none
  design : Option String := none
  country : Option String := none
  corrCountryCode : Option String := none
  corrCountryName : Option String := none
  links : PaperLinks := {}
  flags : Option PaperFlags := none
deriving DecidableEq, Repr

/-- `NormalizedPaper` = `RawPaper` plus the two computed fields
(`src/utils/normalizer.ts`). -/
structure NormalizedPaper extends RawPaper where
  normalizedAuthors : List String
  isAbstractTruncated : Bool
deriving DecidableEq, Repr

/-! ## `normalizeName` (`src/utils/normalizer.ts`, lines 8-28) -/

/-- Separator class of the regex `[-\s]` used for the given-names part. -/
def isGivenSep (c : Char) : Bool := c = '-' || isWsChar c

/-- The initials of a given-names segment: first letter of every
`[-\s]+`-delimited token, uppercased, concatenated. -/
def initialsOf (given : List Char) : List Char :=
  (tokensOf isGivenSep given).map (fun t => jsToUpperChar (t.headD ' '))

/-- `normalizeName` on a character list, mirroring the source line by line.
`split(',')` is `splitOnP (· = ',')`; destructuring `[surname, given]` takes
the first two segments (`given` defaults to the empty string). -/
def normalizeNameL (name : List Char) : List Char :=
  let cleaned := jsTrimL name
  if cleaned = [] then name
  else if ',' ∈ cleaned then
    let parts := splitOnP (fun c => c = ',') cleaned
    let surname := parts.headD []
    let given := (parts.get? 1).getD []
    jsTrimL (jsTrimL surname ++ ' ' :: initialsOf given)
  else
    let parts := tokensOf isWsChar cleaned
    if parts.length = 1 then cleaned
    else
      let surname := (parts.getLast?).getD []
      let initials := (parts.dropLast).map (fun t => jsToUpperChar (t.headD ' '))
      jsTrimL (surname ++ ' ' :: initials)

/-- `normalizeName` (`src/utils/normalizer.ts`). -/
def normalizeName (name : String) : String :=
  (normalizeNameL name.toList).asString

example : normalizeName "Doe, Jane Marie" = "Doe JM" := by decide
example : normalizeName "Jane Marie Doe" = "Doe JM" := by decide
example : normalizeName "Doe, Jane, Marie" = "Doe J" := by decide
example : normalizeName "Doe" = "Doe" := by decide
example : normalizeName "Anna-Lena Berg" = "Berg A" := by decide
example : normalizeName "Doe, Anna-Lena" = "Doe AL" := by decide

/-! ## `deduplicate` (`src/utils/normalizer.ts`, lines 134-148) -/

/-- `paper.doi?.toLowerCase()` combined with the truthiness guards of the
loop: an absent or empty DOI yields no key (`if (doiKey && ...)`). -/
def doiKey (p : RawPaper) : Option String :=
  match p.doi with
  | none => none
  | some s => if jsToLower s = "" then none else some (jsToLower s)

/-- `paper.pmid?.toLowerCase()` with the same truthiness guards. -/
def pmidKey (p : RawPaper) : Option String :=
  match p.pmid with
  | none => none
  | some s => if jsToLower s = "" then none else some (jsToLower s)

/-- The scan loop of `deduplicate`, with the two seen-sets made explicit
(a JS `Set` is modelled as a list used only through membership). The DOI key
is added to the seen set before the PMID test, exactly as in the source. -/
def dedupAux : List String → List String → List RawPaper → List RawPaper
  | _, _, [] => []
  | seenDois, seenPmids, p :: rest =>
    match doiKey p with
    | some d =>
      if d ∈ seenDois then dedupAux seenDois seenPmids rest
      else
        match pmidKey p with
        | some q =>
          if q ∈ seenPmids then dedupAux (d :: seenDois) seenPmids rest
          else p :: dedupAux (d :: seenDois) (q :: seenPmids) rest
        | none => p :: dedupAux (d :: seenDois) seenPmids rest
    | none =>
      match pmidKey p with
      | some q =>
        if q ∈ seenPmids then dedupAux seenDois seenPmids rest
        else p :: dedupAux seenDois (q :: seenPmids) rest
      | none => p :: dedupAux seenDois seenPmids rest

/-- `deduplicate` (`src/utils/normalizer.ts`). -/
def deduplicate (papers : List RawPaper) : List RawPaper :=
  dedupAux [] [] papers

/-! ## Country sanitation and correction (`src/utils/normalizer.ts`, lines 32-88) -/

/-- JS `\w` word-character class (ASCII). -/
def isWordChar (c : Char) : Bool := c.isAlphanum || c = '_'

/-- Whether the position right before `hay` (whose preceding character is
`prev`) is a word boundary. -/
def boundaryOk : Option Char → Bool
  | none => true
  | some c => !isWordChar c

/-- Whether `needle` occurs in `hay` at a position preceded by a word
boundary; models `/\b<literal>/` regex search. -/
def matchesAtWordBoundary (needle : List Char) : Option Char → List Char → Bool
  | prev, [] => boundaryOk prev && needle.isPrefixOf ([] : List Char)
  | prev, c :: rest =>
    (boundaryOk prev && needle.isPrefixOf (c :: rest)) ||
      matchesAtWordBoundary needle (some c) rest

/-- Case-insensitive unanchored literal regex test (`/<literal>/i.test`). -/
def substrIns (pat : String) (cleaned : String) : Bool :=
  jsIncludes (jsToLower cleaned) (jsToLower pat)

/-- Case-insensitive fully anchored literal regex test (`/^<literal>$/i.test`). -/
def anchoredIns (pat : String) (cleaned : String) : Bool :=
  jsToLower cleaned = jsToLower pat

/-- `/\bm\.c\.k\.\)/i.test` (word boundary, then the literal `m.c.k.)`). -/
def mckTest (cleaned : String) : Bool :=
  matchesAtWordBoundary "m.c.k.)".toList none (jsToLower cleaned).toList

/-- One entry of the hand-curated correction table; the regex of the source is
embedded as the boolean test it denotes. -/
structure CountryCorrection where
  test : String → Bool
  code : String
  name : String

/-- `COUNTRY_CORRECTIONS` (`src/utils/normalizer.ts`), in source order. -/
def COUNTRY_CORRECTIONS : List CountryCorrection :=
  [ ⟨substrIns "department of physiotherapy and occupational therapy aarhus university hospital aarhus denmark", "AT", "Austria"⟩,
    ⟨substrIns "faculty of health and life sciences linnaeus university kalmar sweden", "SE", "Sweden"⟩,
    ⟨substrIns "Ã¶sterreich", "AT", "Austria"⟩,
    ⟨mckTest, "US", "United States"⟩,
    ⟨anchoredIns "alabama", "US", "United States"⟩,
    ⟨substrIns "lieutenant colonel charles s. kettles", "US", "United States"⟩,
    ⟨substrIns "department of emergency medicine university of colorado school of medicine denver co", "US", "United States"⟩,
    ⟨anchoredIns "mi", "US", "United States"⟩ ]

/-- `applyCountryCorrections`: the returned partial record
`{corrCountryCode, corrCountryName}` is modelled as a `(code, name)` pair. -/
def applyCountryCorrections (country : Option String) : Option (String × String) :=
  if !jsTruthy country then none
  else
    let cleaned := jsTrim (country.getD "")
    match COUNTRY_CORRECTIONS.find? (fun corr => corr.test cleaned) with
    | some corr => some (corr.code, corr.name)
    | none => none

/-- Whether, at this position, optional whitespace followed by one of the
(lower-cased) literals `pats` begins; used for the leftmost-match search of
`/\s*<literal>.*$/i`. -/
def wsThenPat (pats : List (List Char)) : List Char → Bool
  | [] => pats.any (fun pat => pat.isPrefixOf ([] : List Char))
  | c :: rest =>
    pats.any (fun pat => pat.isPrefixOf ((c :: rest).map Char.toLower)) ||
      (isWsChar c && wsThenPat pats rest)

/-- Remove everything from the leftmost position where `test` holds to the end
of the list (the effect of `.replace(/<pat>.*$/, '')`, assuming the string has
no newline, which holds for the country strings this is applied to). -/
def cutAtMatch (test : List Char → Bool) : List Char → List Char
  | [] => []
  | c :: rest => if test (c :: rest) then [] else c :: cutAtMatch test rest

/-- Character class `[A-Z0-9._%+-]` of the e-mail local part (`/i`). -/
def isLocalChar (c : Char) : Bool :=
  c.isAlphanum || c = '.' || c = '_' || c = '%' || c = '+' || c = '-'

/-- Character class `[A-Z0-9.-]` of the e-mail domain part (`/i`). -/
def isDomainChar (c : Char) : Bool := c.isAlphanum || c = '.' || c = '-'

/-- `[A-Z]{2,}\s*$` (`/i`): a maximal run of at least two letters followed by
nothing but whitespace to the end. Taking the maximal run is complete because
the letter and whitespace classes are disjoint. -/
def tldMatch (l : List Char) : Bool :=
  let t := l.takeWhile Char.isAlpha
  decide (t.length ≥ 2) && (l.drop t.length).all isWsChar

/-- The backtracking point of the regex: after at least one domain character,
`[A-Z0-9.-]*\.[A-Z]{2,}\s*$` matches the remaining list iff some `.` in it
splits further domain characters from the final TLD (`.` belongs to the
domain class too, so every dot is a candidate separator, as for the regex
engine). -/
def domainDotSplit : List Char → Bool
  | [] => false
  | c :: rest =>
    (c = '.' && tldMatch rest) || (isDomainChar c && domainDotSplit rest)

/-- `\s*[A-Z0-9._%+-]+@[A-Z0-9.-]+\.[A-Z]{2,}\s*$` (`/i`) matching the whole
remaining list (the part after the `[.;]` separator). The whitespace, local
and `@` steps are deterministic because their classes are disjoint from their
successors; the domain/TLD dot choice backtracks via `domainDotSplit`. -/
def emailAfterSep (l : List Char) : Bool :=
  let l1 := l.dropWhile isWsChar
  let loc := l1.takeWhile isLocalChar
  decide (loc ≠ []) &&
    (match l1.drop loc.length with
     | '@' :: r =>
       (match r with
        | [] => false
        | c :: rest => isDomainChar c && domainDotSplit rest)
     | _ => false)

/-- Whether `/\s*[.;]\s*[A-Z0-9._%+-]+@[A-Z0-9.-]+\.[A-Z]{2,}\s*$/i` matches
starting exactly at this position (the match must extend to the end because of
the `$` anchor). -/
def emailTailAt (l : List Char) : Bool :=
  match l.dropWhile isWsChar with
  | c :: rest => (c = '.' || c = ';') && emailAfterSep rest
  | [] => false

/-- `.replace(/\s*[.;]\s*[A-Z0-9._%+-]+@[A-Z0-9.-]+\.[A-Z]{2,}\s*$/i, '')`:
remove everything from the leftmost position where the end-anchored e-mail
tail pattern matches, as the regex engine does. -/
def stripEmailTail (l : List Char) : List Char :=
  cutAtMatch emailTailAt l

/-- `sanitizeCountry` (`src/utils/normalizer.ts`, lines 78-88). A present but
empty input is returned unchanged (`country ?? undefined`); a string that
sanitizes to empty becomes `none` (`cleaned || undefined`). -/
def sanitizeCountry (country : Option String) : Option String :=
  match country with
  | none => none
  | some s =>
    if s = "" then some ""
    else
      let l1 := cutAtMatch (wsThenPat ["electronic address:".toList]) s.toList
      let l2 := cutAtMatch (wsThenPat ["e-mail:".toList, "email:".toList]) l1
      let l3 := stripEmailTail l2
      let l4 := jsTrimL l3
      let l5 := (l4.reverse.dropWhile (fun c => c = '.' || c = ';' || c = ',')).reverse
      let cleaned := (jsTrimL l5).asString
      if cleaned = "" then none else some cleaned

/-! ## Inference helpers (`src/utils/normalizer.ts`, lines 90-132) -/

/-- `containsAny` (`terms.some((term) => text.includes(term))`). -/
def containsAny (text : String) (terms : List String) : Bool :=
  terms.any (fun term => jsIncludes text term)

/-- Insertion-ordered set insertion (JS `Set.prototype.add`). -/
def insertOrderedSet (l : List String) (x : String) : List String :=
  if x ∈ l then l else l ++ [x]

/-- `domain.replace(/\b\w/g, (match) => match.toUpperCase())`: uppercase every
word character preceded by a non-word character (or the start). The boolean
argument records whether the previous character was a word character. -/
def capWordsL : Bool → List Char → List Char
  | _, [] => []
  | prevWord, c :: rest =>
    (if !prevWord && isWordChar c then jsToUpperChar c else c) :: capWordsL (isWordChar c) rest

/-- Word-capitalisation of a string. -/
def capWords (s : String) : String := (capWordsL false s.toList).asString

/-- The keyword table of `inferDomains`, in source order. -/
def DOMAIN_RULES : List (String × List String) :=
  [ ("cognitive", ["moca", "sdmt", "neuropsych", "cognitive"]),
    ("psychological", ["hads", "anxiety", "depression", "pts"]),
    ("qol", ["eq-5d", "quality of life", "sf-36"]),
    ("participation", ["return to work", "mpai-4", "community reintegration", "employment"]),
    ("caregiver", ["caregiver", "zarit", "family burden"]) ]

/-- `inferDomains` (`src/utils/normalizer.ts`). The JS `Set` preserves
insertion order and is modelled as an ordered duplicate-free list. -/
def inferDomains (paper : RawPaper) : List String :=
  let seed0 := ((paper.domains.getD []).map jsToLower).foldl insertOrderedSet []
  let text := jsToLower
    (paper.title ++ " " ++ paper.abstract ++ " " ++ String.intercalate " " (paper.keywords.getD []))
  let seed := DOMAIN_RULES.foldl
    (fun seed rule =>
      if containsAny text (rule.2.map jsToLower) then insertOrderedSet seed (jsToLower rule.1)
      else seed)
    seed0
  seed.map capWords

/-- `inferSetting` (`src/utils/normalizer.ts`). -/
def inferSetting (paper : RawPaper) : Option String :=
  if jsTruthy paper.setting then paper.setting
  else
    let text := jsToLower (paper.title ++ " " ++ paper.abstract)
    if jsIncludes text "out-of-hospital" || jsIncludes text "ohca" then some "OHCA"
    else if jsIncludes text "in-hospital" || jsIncludes text "ihca" then some "IHCA"
    else if jsIncludes text "cardiac arrest" then some "Mixed"
    else some "Unclear"

/-- `inferDesign` (`src/utils/normalizer.ts`). -/
def inferDesign (paper : RawPaper) : Option String :=
  if jsTruthy paper.design then paper.design
  else
    let text := jsToLower (paper.title ++ " " ++ paper.abstract)
    if jsIncludes text "randomized" then some "Randomized controlled trial"
    else if jsIncludes text "prospective" then some "Prospective cohort"
    else if jsIncludes text "retrospective" then some "Retrospective cohort"
    else if jsIncludes text "cross-sectional" then some "Cross-sectional study"
    else if jsIncludes text "mixed-method" || jsIncludes text "mixed methods" then some "Mixed methods"
    else none

/-- `isAbstractTruncated` (`Boolean(abstract && abstract.trim().endsWith('...'))`). -/
def isAbstractTruncated (abstract : String) : Bool :=
  abstract ≠ "" && (jsTrim abstract).endsWith "..."

/-! ## `normalizeRecords` (`src/utils/normalizer.ts`, lines 150-172) -/

/-- Character-code lexicographic three-way comparison of character lists. -/
def localeCmpL : List Char → List Char → Int
  | [], [] => 0
  | [], _ :: _ => -1
  | _ :: _, [] => 1
  | a :: as, b :: bs =>
    if a.toNat < b.toNat then -1
    else if b.toNat < a.toNat then 1
    else localeCmpL as bs

/-- `a.localeCompare(b)` modelled as character-code lexicographic comparison
(all titles on the compared paths are ASCII, where the default locale
collation agrees with code-point order up to case/diacritic subtleties that
the corpus titles do not exercise). -/
def localeCmp (a b : String) : Int :=
  localeCmpL a.toList b.toList

/-- The `normalizeRecords` sort comparator
`(a, b) => b.year - a.year || a.title.localeCompare(b.title)`, as the
"comparator value is non-positive" relation used by a stable sort. -/
def paperCmpLe (a b : NormalizedPaper) : Bool :=
  (if b.year - a.year ≠ 0 then b.year - a.year else localeCmp a.title b.title) ≤ 0

/-- The mapping step of `normalizeRecords` applied to one record. -/
def normalizeOne (paper : RawPaper) : NormalizedPaper :=
  let normalizedAuthors := paper.authors.map normalizeName
  let domains := inferDomains paper
  let setting := inferSetting paper
  let design := match inferDesign paper with
    | some d => some d
    | none => paper.design
  let country := match sanitizeCountry paper.country with
    | some c => some c
    | none => paper.country
  let correctedCountry := applyCountryCorrections country
  let effectiveCountry := match correctedCountry with
    | some (_, nm) => some nm
    | none => country
  { toRawPaper :=
      { paper with
        country := effectiveCountry,
        corrCountryCode := match correctedCountry with
          | some (cd, _) => some cd
          | none => paper.corrCountryCode,
        corrCountryName := match correctedCountry with
          | some (_, nm) => some nm
          | none => paper.corrCountryName,
        domains := some domains,
        setting := setting,
        design := design },
    normalizedAuthors := normalizedAuthors,
    isAbstractTruncated := isAbstractTruncated paper.abstract }

/-- `normalizeRecords` (`src/utils/normalizer.ts`): deduplicate, enrich each
record, and sort by year descending then title ascending (JS `sort` is a
stable sort driven by the comparator). -/
def normalizeRecords (papers : List RawPaper) : List NormalizedPaper :=
  ((deduplicate papers).map normalizeOne).mergeSort paperCmpLe

/-! ## Record resolver (`src/utils/paperFetcher.ts`) -/

/-- The error taxonomy of the resolver: `lookup` is the domain error class
`PaperLookupError`; `transport` stands for any exception outside that class
(network failure, malformed body, ...), which the resolver never wraps. -/
inductive FetchErr where
  | lookup (message : String)
  | transport (message : String)
deriving DecidableEq, Repr

/-- A truthiness filter for one optional link value (`if (value) acc[key] = value`). -/
def optTruthy (o : Option String) : Option String :=
  match o with
  | none => none
  | some s => if s = "" then none else some s

/-- `cleanLinks` (`src/utils/paperFetcher.ts`, lines 139-144): keep only keys
with truthy values. -/
def cleanLinks (links : PaperLinks) : PaperLinks :=
  { pubmed := optTruthy links.pubmed,
    doi := optTruthy links.doi,
    pmc := optTruthy links.pmc }

/-- `cleanFlags` (`src/utils/paperFetcher.ts`, lines 146-150): drop
`undefined`-valued entries (a `none` field models an absent entry) and return
`none` when no entry is left. -/
def cleanFlags (flags : Option PaperFlags) : Option PaperFlags :=
  match flags with
  | none => none
  | some f =>
    if f.open_access = none ∧ f.has_fulltext = none then none else some f

/-- `{...fallback.flags, ...preferred.flags}`: key-wise union with the
preferred record's present keys winning. -/
def spreadFlags (fallback preferred : Option PaperFlags) : PaperFlags :=
  { open_access := ((preferred.getD {}).open_access).orElse (fun _ => (fallback.getD {}).open_access),
    has_fulltext := ((preferred.getD {}).has_fulltext).orElse (fun _ => (fallback.getD {}).has_fulltext) }

/-- `{...fallback.links, ...preferred.links}`: the link objects produced by the
fetchers contain only truthy-valued keys, so the JS spread is the key-wise
"preferred key if present, else fallback" union. -/
def spreadLinks (fallback preferred : PaperLinks) : PaperLinks :=
  { pubmed := preferred.pubmed.orElse (fun _ => fallback.pubmed),
    doi := preferred.doi.orElse (fun _ => fallback.doi),
    pmc := preferred.pmc.orElse (fun _ => fallback.pmc) }

/-- `mergeRecords` (`src/utils/paperFetcher.ts`, lines 467-480).
`{...fallback, ...preferred}` is modelled per the key presence of the two
fetcher-produced records it is applied to: the scalar and identifier fields are
keys the preferred (biomedical) record always carries, so the preferred value
wins; `domains`/`setting`/`design`/`corrCountry*` are keys neither fetcher
emits, so the fallback value survives whenever the preferred record has none.
The listed special cases then override `authors`, `abstract`, `keywords`,
`mesh`, `links` and `flags` exactly as in the source. -/
def mergeRecords (preferred fallback : RawPaper) : RawPaper :=
  { id := preferred.id,
    pmid := preferred.pmid,
    doi := preferred.doi,
    pmcid := preferred.pmcid,
    title := preferred.title,
    journal := preferred.journal,
    year := preferred.year,
    date := preferred.date,
    country := preferred.country,
    domains := preferred.domains.orElse (fun _ => fallback.domains),
    setting := preferred.setting.orElse (fun _ => fallback.setting),
    design := preferred.design.orElse (fun _ => fallback.design),
    corrCountryCode := preferred.corrCountryCode.orElse (fun _ => fallback.corrCountryCode),
    corrCountryName := preferred.corrCountryName.orElse (fun _ => fallback.corrCountryName),
    authors := if preferred.authors ≠ [] then preferred.authors else fallback.authors,
    abstract := if preferred.abstract ≠ "" then preferred.abstract
      else if fallback.abstract ≠ "" then fallback.abstract else "",
    keywords := if jsArrTruthy preferred.keywords then preferred.keywords else fallback.keywords,
    mesh := if jsArrTruthy preferred.mesh then preferred.mesh else fallback.mesh,
    links := cleanLinks (spreadLinks fallback.links preferred.links),
    flags := cleanFlags (some (spreadFlags fallback.flags preferred.flags)) }

/-- The provider calls `fetchPaperByIdentifier` delegates to, abstracted as
oracles: `crossref doi` is `fetchCrossrefMetadata`, `pubmed pmid` is
`fetchPubMedMetadata`, `resolvePmcid pmcid` is `resolvePmidFromPmcid`. An
`Except.error` models a thrown exception. -/
structure FetchEnv where
  crossref : String → Except FetchErr RawPaper
  pubmed : String → Except FetchErr RawPaper
  resolvePmcid : String → Except FetchErr String

/-- `fetchPaperByIdentifier` (`src/utils/paperFetcher.ts`, lines 482-513).
Only the inner PubMed lookup of the DOI branch is guarded by
`try/catch (error instanceof PaperLookupError)`; every other call's exception
propagates. The DOI branch with no embedded PMID returns the registry record
directly (the source contains no `esearch` term-search fallback). -/
def fetchPaperByIdentifier (env : FetchEnv) (doi pmid pmcid : Option String) :
    Except FetchErr RawPaper :=
  if !jsTruthy doi && !jsTruthy pmid && !jsTruthy pmcid then
    .error (.lookup "A DOI, PubMed ID, or PubMed Central ID is required.")
  else if jsTruthy pmcid then
    match env.resolvePmcid (pmcid.getD "") with
    | .error e => .error e
    | .ok resolvedPmid => env.pubmed resolvedPmid
  else if jsTruthy pmid then env.pubmed (pmid.getD "")
  else if !jsTruthy doi then .error (.lookup "A DOI is required.")
  else
    match env.crossref (doi.getD "") with
    | .error e => .error e
    | .ok crossref =>
      if jsTruthy crossref.pmid then
        match env.pubmed (crossref.pmid.getD "") with
        | .ok pubmed => .ok (mergeRecords pubmed crossref)
        | .error (.lookup _) => .ok crossref
        | .error (.transport m) => .error (.transport m)
      else .ok crossref

/-! ## PubMed identifier-list and flags extraction
(`src/utils/paperFetcher.ts`, lines 422-447) -/

/-- One entry of `PubmedData.ArticleIdList.ArticleId` after XML parsing:
either a bare text node (string or number) or an attributed node. -/
inductive ArticleIdEntry where
  | prim (text : String)
  | node (text : Option String) (idType : Option String)
deriving DecidableEq, Repr

/-- The normalisation map over the id entries (bare entries become
`{text: String(entryId), IdType: undefined}`). -/
def articleIdTypeOf : ArticleIdEntry → Option String
  | .prim _ => none
  | .node _ t => t

/-- The `text` of an id entry after normalisation. -/
def articleIdTextOf : ArticleIdEntry → Option String
  | .prim s => some s
  | .node t _ => t

/-- `articleIds.find((id) => id?.IdType?.toLowerCase() === '<ty>')?.text`. -/
def findArticleId (ids : List ArticleIdEntry) (ty : String) : Option String :=
  (ids.find? (fun i => (articleIdTypeOf i).map jsToLower = some ty)).bind articleIdTextOf

/-- `const pmcid = pmcidRaw ? String(pmcidRaw).trim() : undefined;`. -/
def pubmedPmcid (ids : List ArticleIdEntry) : Option String :=
  let pmcidRaw := findArticleId ids "pmc"
  if jsTruthy pmcidRaw then some (jsTrim (pmcidRaw.getD "")) else none

/-- `const doi = doiRaw ? String(doiRaw).trim() : undefined;`. -/
def pubmedDoi (ids : List ArticleIdEntry) : Option String :=
  let doiRaw := findArticleId ids "doi"
  if jsTruthy doiRaw then some (jsTrim (doiRaw.getD "")) else none

/-- The flags object built by `fetchPubMedMetadata`
(lines 444-447): `cleanFlags({has_fulltext: Boolean(pmcid), open_access: Boolean(pmcid)})`. -/
def pubmedFlags (ids : List ArticleIdEntry) : Option PaperFlags :=
  cleanFlags (some
    { has_fulltext := some (jsTruthy (pubmedPmcid ids)),
      open_access := some (jsTruthy (pubmedPmcid ids)) })

/-! ## Search engine (`src/utils/search.ts`) -/

/-- `SearchState` (`src/utils/types.ts`). `years` is the inclusive
`[minYear, maxYear]` pair. -/
structure SearchState where
  query : String
  years : Int × Int
  domains : List String := []
  settings : List String := []
  designs : List String := []
  countries : List String := []
  journals : List String := []
  quickFilter : Option String := none
deriving DecidableEq, Repr

/-- `QUICK_FILTERS` (`src/utils/search.ts`), in source order. -/
def QUICK_FILTERS : List (String × List String) :=
  [ ("Cognitive", ["cognitive"]),
    ("Psychological", ["psychological"]),
    ("QoL", ["qol", "quality of life"]),
    ("Participation/RTW", ["participation", "return to work"]),
    ("Caregiver", ["caregiver"]),
    ("Return to Work", ["return to work", "vocational", "employment"]),
    ("Family/Key Supporter", ["caregiver", "family", "supporter"]) ]

/-- `QUICK_FILTERS[name] ?? []`. -/
def quickFilterTerms (name : String) : List String :=
  ((QUICK_FILTERS.find? (fun kv => kv.1 = name)).map (fun kv => kv.2)).getD []

/-- `withinYearRange` (`src/utils/search.ts`). -/
def withinYearRange (paper : NormalizedPaper) (years : Int × Int) : Bool :=
  decide (paper.year ≥ years.1) && decide (paper.year ≤ years.2)

/-- `matchesFacetFilters` (`src/utils/search.ts`, lines 39-56): a record passes
iff, facet by facet, the selected list is empty or the record's field meets it. -/
def matchesFacetFilters (paper : NormalizedPaper) (state : SearchState) : Bool :=
  (state.domains = [] || (paper.domains.getD []).any (fun d => state.domains.contains d)) &&
  (state.settings = [] || (jsTruthy paper.setting && state.settings.contains (paper.setting.getD ""))) &&
  (state.designs = [] || (jsTruthy paper.design && state.designs.contains (paper.design.getD ""))) &&
  (state.countries = [] || (jsTruthy paper.country && state.countries.contains (paper.country.getD ""))) &&
  (state.journals = [] || state.journals.contains paper.journal)

/-- `matchesQuickFilters` (`src/utils/search.ts`, lines 58-67). -/
def matchesQuickFilters (paper : NormalizedPaper) (state : SearchState) : Bool :=
  if !jsTruthy state.quickFilter then true
  else
    let terms := quickFilterTerms (state.quickFilter.getD "")
    if terms = [] then true
    else
      let text := jsToLower (paper.title ++ " " ++ paper.abstract ++ " " ++
        String.intercalate " " (paper.keywords.getD []) ++ " " ++
        String.intercalate " " (paper.domains.getD []))
      terms.any (fun term => jsIncludes text (jsToLower term))

/-- A match-location entry reported by the fuzzy library (`includeMatches`). -/
structure FuseMatch where
  key : Option String
deriving DecidableEq, Repr

/-- One fuzzy search hit: the matched record, the reported similarity score
(a float in [0,1], modelled as a rational; `none` when the library omits it)
and optional match metadata. -/
structure FuseResult where
  item : NormalizedPaper
  score : Option ℚ := none
  «matches» : Option (List FuseMatch) := none
deriving DecidableEq, Repr

/-- `buildExtendedQuery` (`src/utils/search.ts`, lines 69-80): tokenize on
whitespace, drop tokens shorter than 3, prepend the include operator
(an apostrophe) to each lower-cased token and join by spaces. -/
def buildExtendedQuery (raw : String) : String :=
  let tokens := (tokensOf isWsChar (jsTrimL raw.toList)).filter (fun t => t.length ≥ 3)
  if tokens = [] then jsTrim raw
  else String.intercalate " "
    (tokens.map (fun t => (Char.ofNat 39 :: t.map Char.toLower).asString))

/-- `searchWithFallback` (`src/utils/search.ts`, lines 82-92); the Fuse index
over the candidates is abstracted as the `search` oracle. -/
def searchWithFallback (search : String → List FuseResult) (rawQuery : String) :
    List FuseResult :=
  let strictQuery := buildExtendedQuery rawQuery
  let results := search strictQuery
  if results = [] then search rawQuery else results

/-- `isGoodMatch` (`src/utils/search.ts`, lines 94-114). -/
def isGoodMatch (result : FuseResult) : Bool :=
  let score := result.score.getD 1
  if score > (35 : ℚ) / 100 then false
  else
    match result.«matches» with
    | some ms =>
      if ms ≠ [] then
        ms.any (fun m => m.key = some "title" || m.key = some "abstract" || m.key = some "keywords")
      else true
    | none => true

/-- `scoreThenYearThenTitle` (`src/utils/search.ts`, lines 116-129) as the
comparator value it returns (`a.score ?? 1` and `a.item.year ?? 0` are the
source's defaults; `year` is never absent in the model). -/
def scoreThenYearThenTitle (a b : FuseResult) : ℚ :=
  let sa := a.score.getD 1
  let sb := b.score.getD 1
  if sa ≠ sb then sa - sb
  else if a.item.year ≠ b.item.year then ((b.item.year - a.item.year : Int) : ℚ)
  else (localeCmp a.item.title b.item.title : ℚ)

/-- The "comparator value is non-positive" relation driving the stable sort of
the ranked results. -/
def fuseResultLe (a b : FuseResult) : Bool :=
  decide (scoreThenYearThenTitle a b ≤ 0)

/-- The comparator of `sortByYearThenTitleDesc` (lines 131-138) as a
non-positivity relation. -/
def sortPapersLe (a b : NormalizedPaper) : Bool :=
  decide ((if a.year ≠ b.year then ((b.year - a.year : Int) : ℚ) else (localeCmp a.title b.title : ℚ)) ≤ 0)

/-- `sortByYearThenTitleDesc` (`src/utils/search.ts`). -/
def sortByYearThenTitleDesc (papers : List NormalizedPaper) : List NormalizedPaper :=
  papers.mergeSort sortPapersLe

/-- The ranked tail of `applySearch`: keep the good matches and sort them with
`scoreThenYearThenTitle` (JS `Array.prototype.sort` is stable). -/
def rankedResults (searchResults : List FuseResult) : List FuseResult :=
  (searchResults.filter isGoodMatch).mergeSort fuseResultLe

/-- `applySearch` (`src/utils/search.ts`, lines 140-161). The construction of
the Fuse index over the filtered candidates is abstracted as the `fuse`
oracle (`fuse candidates query` stands for
`new Fuse(candidates, fuseOptions).search(query, ...)` with the 200-hit
limit absorbed into the oracle). The candidate filter of its first lines: -/
def searchCandidates (allPapers : List NormalizedPaper) (state : SearchState) :
    List NormalizedPaper :=
  allPapers.filter (fun paper =>
    withinYearRange paper state.years && matchesFacetFilters paper state &&
      matchesQuickFilters paper state)

/-- `applySearch` (`src/utils/search.ts`, lines 140-161), continued. -/
def applySearch (allPapers : List NormalizedPaper) (state : SearchState)
    (fuse : List NormalizedPaper → String → List FuseResult) : List NormalizedPaper :=
  let query := jsTrim state.query
  let candidates := searchCandidates allPapers state
  if query = "" then sortByYearThenTitleDesc candidates
  else (rankedResults (searchWithFallback (fuse candidates) query)).map (fun r => r.item)

/-! ## URL-state round trip (`src/utils/search.ts`, lines 216-263).
`URLSearchParams` is modelled as the ordered list of its decoded
`(key, value)` pairs; `set`/`get`/`getAll`/`append`/`delete` mirror the
WHATWG behaviour on that list. -/

/-- The search-parameter list of a URL. -/
abbrev Params := List (String × String)

/-- `URLSearchParams.prototype.get`: the first value for the key, if any. -/
def getParam : Params → String → Option String
  | [], _ => none
  | kv :: rest, k => if kv.1 = k then some kv.2 else getParam rest k

/-- `URLSearchParams.prototype.getAll`: every value for the key, in order. -/
def getAllParams : Params → String → List String
  | [], _ => []
  | kv :: rest, k =>
    if kv.1 = k then kv.2 :: getAllParams rest k else getAllParams rest k

/-- `URLSearchParams.prototype.delete`: drop every pair with the key. -/
def deleteParam : Params → String → Params
  | [], _ => []
  | kv :: rest, k =>
    if kv.1 = k then deleteParam rest k else kv :: deleteParam rest k

/-- `URLSearchParams.prototype.append`. -/
def appendParam (ps : Params) (k v : String) : Params :=
  ps ++ [(k, v)]

/-- `URLSearchParams.prototype.set`: replace the first pair with this key and
drop the others; append if the key is absent. -/
def setParam : Params → String → String → Params
  | [], k, v => [(k, v)]
  | kv :: rest, k, v =>
    if kv.1 = k then (k, v) :: deleteParam rest k else kv :: setParam rest k v

/-- The decimal digits of a natural number, most significant first
(JS number-to-string for a non-negative integer). -/
def natDigits (n : Nat) : List Char :=
  if _h : n < 10 then [Nat.digitChar n]
  else natDigits (n / 10) ++ [Nat.digitChar (n % 10)]
decreasing_by exact Nat.div_lt_self (by omega) (by omega)

/-- JS template interpolation of an integer-valued number. -/
def jsNumToString (i : Int) : String :=
  (if i < 0 then '-' :: natDigits i.natAbs else natDigits i.toNat).asString

/-- The numeric value of a digit list, most significant first. -/
def digitsValue (l : List Char) : Nat :=
  l.foldl (fun acc c => acc * 10 + (c.toNat - 48)) 0

/-- JS `Number.parseInt(v, 10)`: skip whitespace, read an optional sign and
the longest digit run; `none` models `NaN`. -/
def jsParseInt (s : String) : Option Int :=
  let l := s.toList.dropWhile isWsChar
  let sign : Int := if l.headD ' ' = '-' then -1 else 1
  let l2 := if l.headD ' ' = '-' || l.headD ' ' = '+' then l.tail else l
  let digits := l2.takeWhile Char.isDigit
  if digits = [] then none else some (sign * (digitsValue digits : Int))

/-- `parseStateFromUrl` (`src/utils/search.ts`, lines 216-236). In
`parseRange`, a raw value with no `:` destructures to an undefined second
component in JS, which the typed state cannot hold; it is modelled as the
fallback (unreachable for serialized states, which always carry `min:max`). -/
def parseStateFromUrl (ps : Params) (defaults : SearchState) : SearchState :=
  let parseMulti := fun (k : String) => (getAllParams ps k).filter (fun v => v ≠ "")
  let parseRange := fun (k : String) (fallback : Int × Int) =>
    match getParam ps k with
    | none => fallback
    | some raw =>
      if raw = "" then fallback
      else
        let parts := splitOnP (fun c => c = ':') raw.toList
        match jsParseInt ((parts.headD []).asString),
              jsParseInt (((parts.get? 1).getD []).asString) with
        | some a, some b => (a, b)
        | _, _ => fallback
  { query := (getParam ps "q").getD defaults.query,
    years := parseRange "years" defaults.years,
    domains := if parseMulti "domain" ≠ [] then parseMulti "domain" else defaults.domains,
    settings := if parseMulti "setting" ≠ [] then parseMulti "setting" else defaults.settings,
    designs := if parseMulti "design" ≠ [] then parseMulti "design" else defaults.designs,
    countries := if parseMulti "country" ≠ [] then parseMulti "country" else defaults.countries,
    journals := if parseMulti "journal" ≠ [] then parseMulti "journal" else defaults.journals,
    quickFilter := match getParam ps "quick" with
      | some v => some v
      | none => defaults.quickFilter }

/-- `delete` then repeated `append` for one multi-value facet key. -/
def putMulti (ps : Params) (k : String) (values : List String) : Params :=
  values.foldl (fun acc v => appendParam acc k v) (deleteParam ps k)

/-- `serializeStateToUrl` (`src/utils/search.ts`, lines 238-263). -/
def serializeStateToUrl (state : SearchState) (ps : Params) : Params :=
  let ps := if state.query ≠ "" then setParam ps "q" state.query else deleteParam ps "q"
  let ps := setParam ps "years"
    (jsNumToString state.years.1 ++ ":" ++ jsNumToString state.years.2)
  let ps := putMulti ps "domain" state.domains
  let ps := putMulti ps "setting" state.settings
  let ps := putMulti ps "design" state.designs
  let ps := putMulti ps "country" state.countries
  let ps := putMulti ps "journal" state.journals
  if jsTruthy state.quickFilter then setParam ps "quick" (state.quickFilter.getD "")
  else deleteParam ps "quick"

/-! # Sanity examples (spec section 8 testable properties) -/

example : inferSetting { id := "x", title := "OHCA outcomes", year := 2024 } = some "OHCA" := by decide
example :
    inferSetting
      { id := "x", title := "Cardiac arrest study", year := 2024,
        abstract := "Using MoCA." } = some "Mixed" := by decide
example :
    inferDesign
      { id := "x", title := "t", year := 2024,
        abstract := "A randomized trial with prospective follow-up." } =
      some "Randomized controlled trial" := by decide
example :
    inferDomains
      { id := "x", title := "Cardiac arrest study", year := 2024,
        abstract := "Using MoCA and return to work outcomes.",
        keywords := some ["Zarit scale"] } =
      ["Cognitive", "Participation", "Caregiver"] := by decide
example : sanitizeCountry (some "Denmark. Electronic address: a@b.dk") = some "Denmark" := by decide
example : sanitizeCountry (some "Sweden; karl@uni.se") = some "Sweden" := by decide
example : sanitizeCountry (some "France;;") = some "France" := by decide
example : sanitizeCountry (some "USA.jdoe@x.org") = some "USA" := by decide
example : sanitizeCountry (some "UK; liz@lab.ac.uk") = some "UK" := by decide
example : sanitizeCountry (some "Chile") = some "Chile" := by decide

/-! # Claim C3: `normalizeName` on comma-containing names -/

lemma splitOnP_of_not_mem {p : Char → Bool} {l : List Char} (h : ∀ x ∈ l, p x = false) :
    splitOnP p l = [l] := by
  induction l with
  | nil => rfl
  | cons c rest ih =>
    have hc : p c = false := h c (by simp)
    have hrest : splitOnP p rest = [rest] := ih (fun x hx => h x (by simp [hx]))
    simp [splitOnP, hc, hrest]

lemma splitOnP_append {p : Char → Bool} {l₁ : List Char} (l₂ : List Char) {c : Char}
    (hc : p c = true) (h : ∀ x ∈ l₁, p x = false) :
    splitOnP p (l₁ ++ c :: l₂) = l₁ :: splitOnP p l₂ := by
  induction l₁ with
  | nil => simp [splitOnP, hc]
  | cons a as ih =>
    have ha : p a = false := h a (by simp)
    have has := ih (fun x hx => h x (by simp [hx]))
    simp [splitOnP, ha, has]

/-- The claim's reading of the comma branch, following the spec's words
(refinement comparison only): the initials are computed from everything after
the FIRST comma. -/
def normalizeNameClaimed (name : String) : String :=
  let cleaned := jsTrimL name.toList
  if cleaned = [] then name
  else if ',' ∈ cleaned then
    let surname := cleaned.takeWhile (fun c => c != ',')
    let given := (cleaned.dropWhile (fun c => c != ',')).tail
    (jsTrimL (jsTrimL surname ++ ' ' :: initialsOf given)).asString
  else normalizeName name

/-- C3 counterexample: on a name with two commas the code takes the given-names
part only up to the second comma, so the initials of "Doe, Jane, Marie" are
"J", not the "JM" the claim's "everything after the first comma" reading
predicts. -/
theorem C3_counterexample :
    normalizeName "Doe, Jane, Marie" = "Doe J" ∧
    normalizeNameClaimed "Doe, Jane, Marie" = "Doe JM" ∧
    normalizeName "Doe, Jane, Marie" ≠ normalizeNameClaimed "Doe, Jane, Marie" :=
  ⟨by decide, by decide, by decide⟩

/-- C3 amended: for a trimmed name decomposing as
`pre ++ "," ++ given ++ rest` where `pre` and `given` are comma-free and
`rest` is empty or starts with another comma, `normalizeName` returns the
trimmed `pre` followed by the uppercased first letters of the `[-\s]`-delimited
tokens of `given` alone — the segment between the first and second commas —
with text from the second comma on ignored. -/
theorem C3_amended (s : String) (pre given rest : List Char)
    (hdec : jsTrimL s.toList = pre ++ ',' :: (given ++ rest))
    (hpre : ',' ∉ pre) (hgiven : ',' ∉ given)
    (hrest : rest = [] ∨ ∃ rest₂, rest = ',' :: rest₂) :
    normalizeName s = (jsTrimL (jsTrimL pre ++ ' ' :: initialsOf given)).asString := by
  have hpre' : ∀ x ∈ pre, (fun c => decide (c = ',')) x = false := by
    intro x hx
    simp only [decide_eq_false_iff_not]
    exact fun he => hpre (he ▸ hx)
  have hgiven' : ∀ x ∈ given, (fun c => decide (c = ',')) x = false := by
    intro x hx
    simp only [decide_eq_false_iff_not]
    exact fun he => hgiven (he ▸ hx)
  have hsplit1 : splitOnP (fun c => decide (c = ',')) (pre ++ ',' :: (given ++ rest)) =
      pre :: splitOnP (fun c => decide (c = ',')) (given ++ rest) :=
    splitOnP_append (given ++ rest) (by simp) hpre'
  have hsplit2 : ∃ tl, splitOnP (fun c => decide (c = ',')) (given ++ rest) = given :: tl := by
    rcases hrest with h | ⟨rest₂, h⟩
    · subst h
      exact ⟨[], by simpa using splitOnP_of_not_mem hgiven'⟩
    · subst h
      exact ⟨splitOnP (fun c => decide (c = ',')) rest₂, splitOnP_append rest₂ (by simp) hgiven'⟩
  rcases hsplit2 with ⟨tl, hsplit2⟩
  have hne : pre ++ ',' :: (given ++ rest) ≠ [] := by simp
  have hmem : ',' ∈ pre ++ ',' :: (given ++ rest) := by simp
  unfold normalizeName normalizeNameL
  rw [hdec]
  rw [if_neg hne, if_pos hmem]
  simp only [hsplit1, hsplit2, List.headD_cons, List.get?]
  rfl

/-- Witness for C3's amended theorem at the counterexample input. -/
theorem C3_amended_witness :
    normalizeName "Doe, Jane, Marie" =
      (jsTrimL (jsTrimL "Doe".toList ++ ' ' :: initialsOf " Jane".toList)).asString :=
  C3_amended "Doe, Jane, Marie" "Doe".toList " Jane".toList ", Marie".toList
    (by decide) (by decide) (by decide) (Or.inr ⟨" Marie".toList, by decide⟩)

/-! # Claim C7: merge precedence for authors -/

/-- C7: the merged record's authors are the preferred record's when non-empty,
else the fallback record's. -/
theorem C7_merge_authors (preferred fallback : RawPaper) :
    (mergeRecords preferred fallback).authors =
      if preferred.authors = [] then fallback.authors else preferred.authors := by
  by_cases h : preferred.authors = [] <;> simp [mergeRecords, h]

/-! # Claim C6: error handling of the embedded-PMID lookup -/

/-- C6: when the registry record embeds a PMID and the PubMed fetch for it
throws, a `PaperLookupError` makes `fetchPaperByIdentifier` return the
registry record alone, while any other exception propagates unchanged. -/
theorem C6_error_handling (env : FetchEnv) (d : String) (hd : d ≠ "")
    (r : RawPaper) (e : FetchErr)
    (hcr : env.crossref d = .ok r) (hpm : jsTruthy r.pmid = true)
    (hpub : env.pubmed (r.pmid.getD "") = .error e) :
    fetchPaperByIdentifier env (some d) none none =
      match e with
      | .lookup _ => .ok r
      | .transport m => .error (.transport m) := by
  have hpm' : ¬(r.pmid.getD "" = "") := by simpa [jsTruthy] using hpm
  cases e <;>
    simp [fetchPaperByIdentifier, jsTruthy, hd, hcr, hpm', hpub]

/-- A registry record embedding PMID 12345678 (the shared test fixture for DOI
`10.1000/example`). -/
def crossrefWithPmid : RawPaper :=
  { id := "12345678",
    pmid := some "12345678",
    doi := some "10.1000/example",
    title := "Example cardiac arrest study",
    authors := ["Doe, Jane", "Research Group"],
    journal := "Journal of Testing",
    year := 2024,
    date := some "2024-07-01",
    abstract := "This is important science.",
    keywords := some ["Cardiac Arrest", "Recovery"],
    links := { doi := some "https://doi.org/10.1000/example",
               pubmed := some "https://pubmed.ncbi.nlm.nih.gov/12345678" },
    flags := some { open_access := some true, has_fulltext := some true } }

/-- An environment whose PubMed fetch fails with the domain error. -/
def envPubMedLookupFails : FetchEnv :=
  { crossref := fun _ => .ok crossrefWithPmid,
    pubmed := fun _ => .error (.lookup "PubMed lookup failed (404 Not Found)"),
    resolvePmcid := fun _ => .error (.lookup "unused") }

/-- Witness for C6 at a concrete environment (domain-error case). -/
theorem C6_error_handling_witness :
    fetchPaperByIdentifier envPubMedLookupFails (some "10.1000/example") none none =
      .ok crossrefWithPmid := by
  have h := C6_error_handling envPubMedLookupFails "10.1000/example" (by decide)
    crossrefWithPmid (.lookup "PubMed lookup failed (404 Not Found)") rfl (by decide) rfl
  simpa using h

/-! # Claim C1: no esearch fallback for DOIs without an embedded PMID -/

/-- The parsed registry record of the repository's own test fixture for DOI
`10.2000/example` (`crossrefNoPubmedId`): it embeds no PMID. -/
def crossrefNoPmidRecord : RawPaper :=
  { id := "10.2000/example",
    pmid := none,
    doi := some "10.2000/example",
    title := "Another example study",
    authors := ["Smith, Alex"],
    journal := "Testing Journal",
    year := 2023,
    date := some "2023-05-20",
    abstract := "Abstract from Crossref.",
    keywords := some ["Testing"],
    links := { doi := some "https://doi.org/10.2000/example" },
    flags := some { open_access := some true, has_fulltext := some true } }

/-- The PubMed record the test fixture serves for the esearch hit (`87654321`
resolving to the PMID-12345678 article carrying DOI `10.2000/example`). -/
def pubmedAlternateRecord : RawPaper :=
  { id := "12345678",
    pmid := some "12345678",
    doi := some "10.2000/example",
    pmcid := some "PMC1234567",
    title := "Example cardiac arrest study",
    authors := ["Doe JA", "Research Group"],
    journal := "Journal of Testing",
    year := 2024,
    date := some "2024-07-15",
    abstract := "BACKGROUND: Background text.\nRESULTS: Results text.",
    mesh := some ["Heart Arrest"],
    keywords := some ["cardiac arrest", "recovery"],
    country := some "United States",
    links := { pubmed := some "https://pubmed.ncbi.nlm.nih.gov/12345678",
               doi := some "https://doi.org/10.2000/example",
               pmc := some "https://www.ncbi.nlm.nih.gov/pmc/articles/PMC1234567" },
    flags := some { open_access := some true, has_fulltext := some true } }

/-- An environment in which the registry serves the PMID-less record while the
biomedical provider would happily serve the matching article for any PMID. -/
def envNoEmbeddedPmid : FetchEnv :=
  { crossref := fun _ => .ok crossrefNoPmidRecord,
    pubmed := fun _ => .ok pubmedAlternateRecord,
    resolvePmcid := fun _ => .error (.lookup "unused") }

/-- C1: at the repository's own test fixture, the source's DOI branch returns
the registry record alone (its `pmid` stays absent and nothing is merged) —
the function contains no esearch term-search fallback, although the
repository's test expects the fallback to produce a merged record with
`pmid = "12345678"`. -/
theorem C1_no_esearch_fallback :
    fetchPaperByIdentifier envNoEmbeddedPmid (some "10.2000/example") none none =
      .ok crossrefNoPmidRecord ∧
    crossrefNoPmidRecord.pmid = none ∧
    crossrefNoPmidRecord.abstract = "Abstract from Crossref." :=
  ⟨rfl, rfl, rfl⟩

/-! # Claim C10: PubMed flags are always present -/

/-- C10: the flags object of a fetched PubMed record always carries both keys:
`cleanFlags` never drops them because both are explicitly `Boolean(pmcid)`,
and both equal the truthiness of the extracted PMC identifier. -/
theorem C10_flags_always_present (ids : List ArticleIdEntry) :
    pubmedFlags ids =
      some { open_access := some (jsTruthy (pubmedPmcid ids)),
             has_fulltext := some (jsTruthy (pubmedPmcid ids)) } := by
  simp [pubmedFlags, cleanFlags]

/-! # Claim C2: country correction step -/

/-- The country value after sanitation as computed by `normalizeRecords`
(`sanitizeCountry(paper.country) ?? paper.country`). -/
def sanitizedCountryOf (paper : RawPaper) : Option String :=
  match sanitizeCountry paper.country with
  | some c => some c
  | none => paper.country

/-- A record whose raw country string `Alabama` matches the
`/^alabama$/i` correction. -/
def alabamaPaper : RawPaper :=
  { id := "x", title := "T", year := 2024, country := some "Alabama" }

/-- C2 counterexample: for the record with country `"Alabama"` the correction
matches and the normalized record's `country` becomes the correction's name
`"United States"`, not the sanitized string `"Alabama"` the claim prescribes. -/
theorem C2_counterexample :
    (normalizeRecords [alabamaPaper]).map (fun p => p.country) = [some "United States"] ∧
    (normalizeRecords [alabamaPaper]).map (fun p => p.corrCountryCode) = [some "US"] ∧
    sanitizedCountryOf alabamaPaper = some "Alabama" ∧
    some "United States" ≠ (some "Alabama" : Option String) := by
  have h : normalizeRecords [alabamaPaper] = [normalizeOne alabamaPaper] := by
    simp [normalizeRecords, deduplicate, dedupAux, doiKey, pmidKey, alabamaPaper]
  rw [h]
  exact ⟨by decide, by decide, by decide, by decide⟩

/-- C2 amended: in the country step, when a correction matches the sanitized
country string, `corrCountryCode`/`corrCountryName` are set from the
correction and `country` becomes the correction's country NAME; when no
correction matches, `country` becomes the sanitized string (or stays the raw
value when sanitation yields nothing) and the correction fields keep their
previous values. -/
theorem C2_amended (paper : RawPaper) :
    (normalizeOne paper).country =
      (match applyCountryCorrections (sanitizedCountryOf paper) with
       | some pr => some pr.2
       | none => sanitizedCountryOf paper) ∧
    (normalizeOne paper).corrCountryCode =
      (match applyCountryCorrections (sanitizedCountryOf paper) with
       | some pr => some pr.1
       | none => paper.corrCountryCode) ∧
    (normalizeOne paper).corrCountryName =
      (match applyCountryCorrections (sanitizedCountryOf paper) with
       | some pr => some pr.2
       | none => paper.corrCountryName) := by
  cases h : applyCountryCorrections (sanitizedCountryOf paper) with
  | none =>
    simp only [sanitizedCountryOf] at h
    simp [normalizeOne, h, sanitizedCountryOf]
  | some pr =>
    simp only [sanitizedCountryOf] at h
    simp [normalizeOne, h]

/-! # Claims C4 and C9: deduplication invariants -/

lemma dedupAux_sublist (l : List RawPaper) : ∀ ds ps, (dedupAux ds ps l).Sublist l := by
  induction l with
  | nil => intro ds ps; exact List.Sublist.refl _
  | cons p rest ih =>
    intro ds ps
    simp only [dedupAux]
    cases hdp : doiKey p with
    | some d =>
      dsimp only
      by_cases hds : d ∈ ds
      · rw [if_pos hds]; exact (ih ds ps).cons p
      · rw [if_neg hds]
        cases hpp : pmidKey p with
        | some q =>
          dsimp only
          by_cases hps : q ∈ ps
          · rw [if_pos hps]; exact (ih _ _).cons p
          · rw [if_neg hps]; exact (ih _ _).cons₂ p
        | none => dsimp only; exact (ih _ _).cons₂ p
    | none =>
      dsimp only
      cases hpp : pmidKey p with
      | some q =>
        dsimp only
        by_cases hps : q ∈ ps
        · rw [if_pos hps]; exact (ih _ _).cons p
        · rw [if_neg hps]; exact (ih _ _).cons₂ p
      | none => dsimp only; exact (ih _ _).cons₂ p

lemma dedupAux_doi_not_seen (l : List RawPaper) : ∀ ds ps d, d ∈ ds →
    ∀ r ∈ dedupAux ds ps l, doiKey r ≠ some d := by
  induction l with
  | nil => intro ds ps d _ r hr; simp [dedupAux] at hr
  | cons p rest ih =>
    intro ds ps d hd r hr
    cases hdp : doiKey p with
    | some dp =>
      simp only [dedupAux, hdp] at hr
      by_cases hds : dp ∈ ds
      · rw [if_pos hds] at hr; exact ih ds ps d hd r hr
      · rw [if_neg hds] at hr
        cases hpp : pmidKey p with
        | some q =>
          simp only [hpp] at hr
          by_cases hps : q ∈ ps
          · rw [if_pos hps] at hr
            exact ih _ _ d (List.mem_cons_of_mem _ hd) r hr
          · rw [if_neg hps] at hr
            rcases List.mem_cons.mp hr with rfl | hr'
            · rw [hdp]
              simp only [ne_eq, Option.some.injEq]
              rintro rfl; exact hds hd
            · exact ih _ _ d (List.mem_cons_of_mem _ hd) r hr'
        | none =>
          simp only [hpp] at hr
          rcases List.mem_cons.mp hr with rfl | hr'
          · rw [hdp]
            simp only [ne_eq, Option.some.injEq]
            rintro rfl; exact hds hd
          · exact ih _ _ d (List.mem_cons_of_mem _ hd) r hr'
    | none =>
      simp only [dedupAux, hdp] at hr
      cases hpp : pmidKey p with
      | some q =>
        simp only [hpp] at hr
        by_cases hps : q ∈ ps
        · rw [if_pos hps] at hr; exact ih _ _ d hd r hr
        · rw [if_neg hps] at hr
          rcases List.mem_cons.mp hr with rfl | hr'
          · rw [hdp]; simp
          · exact ih _ _ d hd r hr'
      | none =>
        simp only [hpp] at hr
        rcases List.mem_cons.mp hr with rfl | hr'
        · rw [hdp]; simp
        · exact ih _ _ d hd r hr'

lemma dedupAux_pmid_not_seen (l : List RawPaper) : ∀ ds ps q, q ∈ ps →
    ∀ r ∈ dedupAux ds ps l, pmidKey r ≠ some q := by
  induction l with
  | nil => intro ds ps q _ r hr; simp [dedupAux] at hr
  | cons p rest ih =>
    intro ds ps q hq r hr
    cases hdp : doiKey p with
    | some dp =>
      simp only [dedupAux, hdp] at hr
      by_cases hds : dp ∈ ds
      · rw [if_pos hds] at hr; exact ih ds ps q hq r hr
      · rw [if_neg hds] at hr
        cases hpp : pmidKey p with
        | some q' =>
          simp only [hpp] at hr
          by_cases hps : q' ∈ ps
          · rw [if_pos hps] at hr; exact ih _ _ q hq r hr
          · rw [if_neg hps] at hr
            rcases List.mem_cons.mp hr with rfl | hr'
            · rw [hpp]
              simp only [ne_eq, Option.some.injEq]
              rintro rfl; exact hps hq
            · exact ih _ _ q (List.mem_cons_of_mem _ hq) r hr'
        | none =>
          simp only [hpp] at hr
          rcases List.mem_cons.mp hr with rfl | hr'
          · rw [hpp]; simp
          · exact ih _ _ q hq r hr'
    | none =>
      simp only [dedupAux, hdp] at hr
      cases hpp : pmidKey p with
      | some q' =>
        simp only [hpp] at hr
        by_cases hps : q' ∈ ps
        · rw [if_pos hps] at hr; exact ih _ _ q hq r hr
        · rw [if_neg hps] at hr
          rcases List.mem_cons.mp hr with rfl | hr'
          · rw [hpp]
            simp only [ne_eq, Option.some.injEq]
            rintro rfl; exact hps hq
          · exact ih _ _ q (List.mem_cons_of_mem _ hq) r hr'
      | none =>
        simp only [hpp] at hr
        rcases List.mem_cons.mp hr with rfl | hr'
        · rw [hpp]; simp
        · exact ih _ _ q hq r hr'

/-- Two records share no non-empty identifier (DOI or PMID, keys already
lower-cased by `doiKey`/`pmidKey`). -/
def noSharedId (a b : RawPaper) : Prop :=
  (∀ k, doiKey a = some k → doiKey b ≠ some k) ∧
  (∀ k, pmidKey a = some k → pmidKey b ≠ some k)

lemma dedupAux_pairwise (l : List RawPaper) :
    ∀ ds ps, (dedupAux ds ps l).Pairwise noSharedId := by
  induction l with
  | nil => intro ds ps; simp [dedupAux]
  | cons p rest ih =>
    intro ds ps
    simp only [dedupAux]
    cases hdp : doiKey p with
    | some dp =>
      dsimp only
      by_cases hds : dp ∈ ds
      · rw [if_pos hds]; exact ih _ _
      · rw [if_neg hds]
        cases hpp : pmidKey p with
        | some q =>
          dsimp only
          by_cases hps : q ∈ ps
          · rw [if_pos hps]; exact ih _ _
          · rw [if_neg hps]
            refine List.Pairwise.cons ?_ (ih _ _)
            intro r hr
            refine ⟨?_, ?_⟩
            · intro k hk
              rw [hdp] at hk; injection hk with he; subst he
              exact dedupAux_doi_not_seen rest _ _ _ (List.mem_cons_self _ _) r hr
            · intro k hk
              rw [hpp] at hk; injection hk with he; subst he
              exact dedupAux_pmid_not_seen rest _ _ _ (List.mem_cons_self _ _) r hr
        | none =>
          dsimp only
          refine List.Pairwise.cons ?_ (ih _ _)
          intro r hr
          refine ⟨?_, ?_⟩
          · intro k hk
            rw [hdp] at hk; injection hk with he; subst he
            exact dedupAux_doi_not_seen rest _ _ _ (List.mem_cons_self _ _) r hr
          · intro k hk
            rw [hpp] at hk; exact absurd hk (by simp)
    | none =>
      dsimp only
      cases hpp : pmidKey p with
      | some q =>
        dsimp only
        by_cases hps : q ∈ ps
        · rw [if_pos hps]; exact ih _ _
        · rw [if_neg hps]
          refine List.Pairwise.cons ?_ (ih _ _)
          intro r hr
          refine ⟨?_, ?_⟩
          · intro k hk
            rw [hdp] at hk; exact absurd hk (by simp)
          · intro k hk
            rw [hpp] at hk; injection hk with he; subst he
            exact dedupAux_pmid_not_seen rest _ _ _ (List.mem_cons_self _ _) r hr
      | none =>
        dsimp only
        refine List.Pairwise.cons ?_ (ih _ _)
        intro r hr
        refine ⟨?_, ?_⟩
        · intro k hk
          rw [hdp] at hk; exact absurd hk (by simp)
        · intro k hk
          rw [hpp] at hk; exact absurd hk (by simp)

/-- C4: the deduplicated list is a subsequence of the input (kept records in
their original relative order), and no two of its elements share a non-empty
DOI or a non-empty PMID, compared case-insensitively. -/
theorem C4_dedup_invariants (papers : List RawPaper) :
    (deduplicate papers).Sublist papers ∧
    (deduplicate papers).Pairwise (fun a b =>
      (¬ ∃ k, doiKey a = some k ∧ doiKey b = some k) ∧
      (¬ ∃ k, pmidKey a = some k ∧ pmidKey b = some k)) := by
  refine ⟨dedupAux_sublist papers [] [], ?_⟩
  refine List.Pairwise.imp ?_ (dedupAux_pairwise papers [] [])
  intro a b hab
  exact ⟨fun h => by rcases h with ⟨k, h1, h2⟩; exact hab.1 k h1 h2,
         fun h => by rcases h with ⟨k, h1, h2⟩; exact hab.2 k h1 h2⟩

/-- C9: when a record `r2` is dropped because its PMID repeats the kept
record `r1`'s, its DOI key `d2` has nevertheless been marked seen before the
PMID test, so a later record `r3` with the same DOI key is dropped too — even
though no retained record carries `d2`. -/
theorem C9_dropped_record_marks_doi (r1 r2 r3 : RawPaper) (d1 d2 q : String)
    (h1d : doiKey r1 = some d1) (h1p : pmidKey r1 = some q)
    (h2d : doiKey r2 = some d2) (h2p : pmidKey r2 = some q)
    (hne : d2 ≠ d1)
    (h3d : doiKey r3 = some d2) :
    deduplicate [r1, r2, r3] = [r1] ∧
    ∀ r ∈ deduplicate [r1, r2, r3], doiKey r ≠ some d2 := by
  have hmain : deduplicate [r1, r2, r3] = [r1] := by
    simp [deduplicate, dedupAux, h1d, h1p, h2d, h2p, h3d, hne]
  refine ⟨hmain, ?_⟩
  intro r hr
  rw [hmain] at hr
  rcases List.mem_singleton.mp hr with rfl
  rw [h1d]
  simp only [ne_eq, Option.some.injEq]
  intro he; exact hne he.symm

/-- First record: kept, owns DOI `10.1/a` and PMID `7`. -/
def dupPaper1 : RawPaper :=
  { id := "1", title := "A", year := 2024, doi := some "10.1/a", pmid := some "7" }

/-- Second record: dropped as a PMID duplicate of the first, but its DOI
`10.1/b` is marked seen anyway. -/
def dupPaper2 : RawPaper :=
  { id := "2", title := "B", year := 2024, doi := some "10.1/b", pmid := some "7" }

/-- Third record: dropped purely because of the poisoned DOI (case-insensitive:
its DOI is `10.1/B`), despite its fresh PMID. -/
def dupPaper3 : RawPaper :=
  { id := "3", title := "C", year := 2024, doi := some "10.1/B", pmid := some "9" }

/-- Witness for C9 at concrete records. -/
theorem C9_dropped_record_marks_doi_witness :
    deduplicate [dupPaper1, dupPaper2, dupPaper3] = [dupPaper1] ∧
    ∀ r ∈ deduplicate [dupPaper1, dupPaper2, dupPaper3], doiKey r ≠ some "10.1/b" :=
  C9_dropped_record_marks_doi dupPaper1 dupPaper2 dupPaper3 "10.1/a" "10.1/b" "7"
    (by decide) (by decide) (by decide) (by decide) (by decide) (by decide)

/-! # Claim C8: ordering of ranked search results -/

lemma localeCmpL_swap : ∀ (a b : List Char), localeCmpL b a = - localeCmpL a b := by
  intro a
  induction a with
  | nil => intro b; cases b <;> simp [localeCmpL]
  | cons x xs ih =>
    intro b
    cases b with
    | nil => simp [localeCmpL]
    | cons y ys =>
      simp only [localeCmpL]
      rcases Nat.lt_trichotomy x.toNat y.toNat with h | h | h
      · rw [if_neg (by omega), if_pos h, if_pos h]; omega
      · rw [if_neg (by omega), if_neg (by omega), if_neg (by omega), if_neg (by omega)]
        exact ih ys
      · rw [if_pos h, if_neg (by omega), if_pos h]

lemma localeCmpL_le_trans : ∀ (a b c : List Char),
    localeCmpL a b ≤ 0 → localeCmpL b c ≤ 0 → localeCmpL a c ≤ 0 := by
  intro a
  induction a with
  | nil =>
    intro b c _ _
    cases c <;> simp [localeCmpL]
  | cons x xs ih =>
    intro b c h1 h2
    cases b with
    | nil => exfalso; simp [localeCmpL] at h1
    | cons y ys =>
      cases c with
      | nil => exfalso; simp [localeCmpL] at h2
      | cons z zs =>
        simp only [localeCmpL] at h1 h2 ⊢
        split_ifs at h1 h2 ⊢ <;> try omega
        all_goals exact ih ys zs h1 h2

lemma localeCmp_le_trans (x y z : String)
    (h1 : localeCmp x y ≤ 0) (h2 : localeCmp y z ≤ 0) : localeCmp x z ≤ 0 :=
  localeCmpL_le_trans x.toList y.toList z.toList h1 h2

lemma localeCmp_le_total (x y : String) : localeCmp x y ≤ 0 ∨ localeCmp y x ≤ 0 := by
  have h := localeCmpL_swap x.toList y.toList
  unfold localeCmp
  omega

lemma scoreLe_trans (a b c : FuseResult)
    (h1 : scoreThenYearThenTitle a b ≤ 0) (h2 : scoreThenYearThenTitle b c ≤ 0) :
    scoreThenYearThenTitle a c ≤ 0 := by
  unfold scoreThenYearThenTitle at h1 h2 ⊢
  by_cases hs1 : a.score.getD 1 = b.score.getD 1
  · by_cases hs2 : b.score.getD 1 = c.score.getD 1
    · have hsac : a.score.getD 1 = c.score.getD 1 := hs1.trans hs2
      rw [if_neg (not_not_intro hs1)] at h1
      rw [if_neg (not_not_intro hs2)] at h2
      rw [if_neg (not_not_intro hsac)]
      by_cases hy1 : a.item.year = b.item.year
      · by_cases hy2 : b.item.year = c.item.year
        · have hyac : a.item.year = c.item.year := hy1.trans hy2
          rw [if_neg (not_not_intro hy1)] at h1
          rw [if_neg (not_not_intro hy2)] at h2
          rw [if_neg (not_not_intro hyac)]
          have h1' : localeCmp a.item.title b.item.title ≤ 0 := by exact_mod_cast h1
          have h2' : localeCmp b.item.title c.item.title ≤ 0 := by exact_mod_cast h2
          exact_mod_cast localeCmp_le_trans _ _ _ h1' h2'
        · rw [if_neg (not_not_intro hy1)] at h1
          rw [if_pos hy2] at h2
          have h2' : c.item.year - b.item.year ≤ 0 := by exact_mod_cast h2
          have hyac : a.item.year ≠ c.item.year := by omega
          rw [if_pos hyac]
          have hfin : c.item.year - a.item.year ≤ 0 := by omega
          exact_mod_cast hfin
      · rw [if_pos hy1] at h1
        have h1' : b.item.year - a.item.year ≤ 0 := by exact_mod_cast h1
        by_cases hy2 : b.item.year = c.item.year
        · have hyac : a.item.year ≠ c.item.year := by omega
          rw [if_pos hyac]
          have hfin : c.item.year - a.item.year ≤ 0 := by omega
          exact_mod_cast hfin
        · rw [if_pos hy2] at h2
          have h2' : c.item.year - b.item.year ≤ 0 := by exact_mod_cast h2
          have hyac : a.item.year ≠ c.item.year := by omega
          rw [if_pos hyac]
          have hfin : c.item.year - a.item.year ≤ 0 := by omega
          exact_mod_cast hfin
    · rw [if_pos hs2] at h2
      have hbc : b.score.getD 1 < c.score.getD 1 := lt_of_le_of_ne (by linarith) hs2
      have hac : a.score.getD 1 < c.score.getD 1 := by rw [hs1]; exact hbc
      rw [if_pos (ne_of_lt hac)]
      linarith
  · rw [if_pos hs1] at h1
    have hab : a.score.getD 1 < b.score.getD 1 := lt_of_le_of_ne (by linarith) hs1
    have hbc : b.score.getD 1 ≤ c.score.getD 1 := by
      by_cases hs2 : b.score.getD 1 = c.score.getD 1
      · exact le_of_eq hs2
      · rw [if_pos hs2] at h2; linarith
    have hac : a.score.getD 1 < c.score.getD 1 := lt_of_lt_of_le hab hbc
    rw [if_pos (ne_of_lt hac)]
    linarith

lemma scoreLe_total (a b : FuseResult) :
    scoreThenYearThenTitle a b ≤ 0 ∨ scoreThenYearThenTitle b a ≤ 0 := by
  unfold scoreThenYearThenTitle
  by_cases hs : a.score.getD 1 = b.score.getD 1
  · by_cases hy : a.item.year = b.item.year
    · rw [if_neg (not_not_intro hs), if_neg (not_not_intro hy),
        if_neg (not_not_intro hs.symm), if_neg (not_not_intro hy.symm)]
      rcases localeCmp_le_total a.item.title b.item.title with h | h
      · left; exact_mod_cast h
      · right; exact_mod_cast h
    · rw [if_neg (not_not_intro hs), if_pos hy,
        if_neg (not_not_intro hs.symm), if_pos (Ne.symm hy)]
      rcases Int.le_total b.item.year a.item.year with h | h
      · left
        have : b.item.year - a.item.year ≤ 0 := by omega
        exact_mod_cast this
      · right
        have : a.item.year - b.item.year ≤ 0 := by omega
        exact_mod_cast this
  · rw [if_pos hs, if_pos (Ne.symm hs)]
    rcases le_total (a.score.getD 1) (b.score.getD 1) with h | h
    · left; linarith
    · right; linarith

/-- The ordering the claim describes on ranked hits: strictly better (smaller)
score first; on equal scores the later year first; on equal years the
lexicographically smaller (`localeCompare`) title first. -/
def rankedBefore (a b : FuseResult) : Prop :=
  a.score.getD 1 < b.score.getD 1 ∨
    (a.score.getD 1 = b.score.getD 1 ∧
      (b.item.year < a.item.year ∨
        (a.item.year = b.item.year ∧ localeCmp a.item.title b.item.title ≤ 0)))

lemma rankedBefore_of_le (a b : FuseResult)
    (h : scoreThenYearThenTitle a b ≤ 0) : rankedBefore a b := by
  unfold scoreThenYearThenTitle at h
  unfold rankedBefore
  by_cases hs : a.score.getD 1 = b.score.getD 1
  · by_cases hy : a.item.year = b.item.year
    · rw [if_neg (not_not_intro hs), if_neg (not_not_intro hy)] at h
      exact Or.inr ⟨hs, Or.inr ⟨hy, by exact_mod_cast h⟩⟩
    · rw [if_neg (not_not_intro hs), if_pos hy] at h
      have h' : b.item.year - a.item.year ≤ 0 := by exact_mod_cast h
      refine Or.inr ⟨hs, Or.inl ?_⟩
      omega
  · rw [if_pos hs] at h
    exact Or.inl (lt_of_le_of_ne (by linarith) hs)

/-- C8: with a non-empty query, `applySearch` returns exactly the ranked
good-match hits in an order where every earlier hit relates to every later hit
by: smaller fuzzy score, or equal score and greater year, or equal score and
year and `localeCompare`-smaller-or-equal title. -/
theorem C8_ranking_order (allPapers : List NormalizedPaper) (state : SearchState)
    (fuse : List NormalizedPaper → String → List FuseResult)
    (hq : jsTrim state.query ≠ "") :
    applySearch allPapers state fuse =
      (rankedResults
        (searchWithFallback (fuse (searchCandidates allPapers state))
          (jsTrim state.query))).map (fun r => r.item) ∧
    (rankedResults
      (searchWithFallback (fuse (searchCandidates allPapers state))
        (jsTrim state.query))).Pairwise rankedBefore := by
  constructor
  · simp [applySearch, hq]
  · have htrans : ∀ (a b c : FuseResult),
        fuseResultLe a b → fuseResultLe b c → fuseResultLe a c := by
      intro a b c h1 h2
      simp only [fuseResultLe, decide_eq_true_eq] at h1 h2 ⊢
      exact scoreLe_trans a b c h1 h2
    have htotal : ∀ (a b : FuseResult), fuseResultLe a b || fuseResultLe b a := by
      intro a b
      simp only [fuseResultLe, Bool.or_eq_true, decide_eq_true_eq]
      exact scoreLe_total a b
    have hsorted := List.sorted_mergeSort htrans htotal
      ((searchWithFallback (fuse (searchCandidates allPapers state))
        (jsTrim state.query)).filter isGoodMatch)
    refine List.Pairwise.imp ?_ hsorted
    intro a b hab
    exact rankedBefore_of_le a b (by simpa [fuseResultLe] using hab)

/-- Two concrete hits with equal scores and distinct years. -/
def hitNewer : FuseResult :=
  { item := { toRawPaper := { id := "n", title := "B title", year := 2024 },
              normalizedAuthors := [], isAbstractTruncated := false },
    score := some ((1 : ℚ) / 10) }

/-- An equally scored hit from an older year. -/
def hitOlder : FuseResult :=
  { item := { toRawPaper := { id := "o", title := "A title", year := 2020 },
              normalizedAuthors := [], isAbstractTruncated := false },
    score := some ((1 : ℚ) / 10) }

/-- A concrete search state with a non-empty query and no filters. -/
def rankingState : SearchState :=
  { query := "arrest", years := (1900, 2100) }

/-- Witness for C8 at a concrete corpus, state and fuzzy oracle. -/
theorem C8_ranking_order_witness :
    jsTrim rankingState.query ≠ "" ∧
    (applySearch [] rankingState (fun _ _ => [hitOlder, hitNewer]) =
      (rankedResults
        (searchWithFallback ((fun _ _ => [hitOlder, hitNewer]) (searchCandidates [] rankingState))
          (jsTrim rankingState.query))).map (fun r => r.item) ∧
    (rankedResults
      (searchWithFallback ((fun _ _ => [hitOlder, hitNewer]) (searchCandidates [] rankingState))
        (jsTrim rankingState.query))).Pairwise rankedBefore) :=
  ⟨by decide, C8_ranking_order [] rankingState (fun _ _ => [hitOlder, hitNewer]) (by decide)⟩

/-! # Claim C5: URL-state round trip -/

lemma digitChar_props (n : Nat) (h : n < 10) :
    (Nat.digitChar n).isDigit = true ∧ isWsChar (Nat.digitChar n) = false ∧
    Nat.digitChar n ≠ '-' ∧ Nat.digitChar n ≠ '+' ∧ Nat.digitChar n ≠ ':' := by
  interval_cases n <;> exact ⟨by decide, by decide, by decide, by decide, by decide⟩

lemma natDigits_props (n : Nat) : ∀ c ∈ natDigits n,
    c.isDigit = true ∧ isWsChar c = false ∧ c ≠ '-' ∧ c ≠ '+' ∧ c ≠ ':' := by
  induction n using Nat.strong_induction_on with
  | _ n ih =>
    rw [natDigits]
    split
    next h =>
      intro c hc
      rw [List.mem_singleton] at hc
      subst hc
      exact digitChar_props n h
    next h =>
      intro c hc
      rcases List.mem_append.mp hc with hc | hc
      · exact ih (n / 10) (Nat.div_lt_self (by omega) (by omega)) c hc
      · rw [List.mem_singleton] at hc
        subst hc
        exact digitChar_props (n % 10) (Nat.mod_lt _ (by omega))

lemma natDigits_ne_nil (n : Nat) : natDigits n ≠ [] := by
  rw [natDigits]
  split <;> simp

lemma digitsValue_append_digit (l : List Char) (c : Char) :
    digitsValue (l ++ [c]) = digitsValue l * 10 + (c.toNat - 48) := by
  unfold digitsValue
  rw [List.foldl_append]
  rfl

lemma digitChar_toNat (n : Nat) (h : n < 10) : (Nat.digitChar n).toNat = 48 + n := by
  interval_cases n <;> rfl

lemma digitsValue_natDigits (n : Nat) : digitsValue (natDigits n) = n := by
  induction n using Nat.strong_induction_on with
  | _ n ih =>
    rw [natDigits]
    split
    next h =>
      show digitsValue [Nat.digitChar n] = n
      unfold digitsValue
      simp [digitChar_toNat n h]
    next h =>
      rw [digitsValue_append_digit, ih (n / 10) (Nat.div_lt_self (by omega) (by omega)),
        digitChar_toNat (n % 10) (Nat.mod_lt _ (by omega))]
      omega

lemma takeWhile_eq_self_of_all {p : Char → Bool} :
    ∀ {l : List Char}, (∀ c ∈ l, p c = true) → l.takeWhile p = l := by
  intro l
  induction l with
  | nil => intro _; rfl
  | cons c rest ih =>
    intro h
    rw [List.takeWhile_cons, if_pos (h c (by simp))]
    rw [ih (fun x hx => h x (by simp [hx]))]

lemma dropWhile_eq_self_of_head {p : Char → Bool} {c : Char} {rest : List Char}
    (h : p c = false) : (c :: rest).dropWhile p = c :: rest := by
  rw [List.dropWhile_cons, if_neg (by simp [h])]

lemma jsParseInt_natDigits (n : Nat) :
    jsParseInt (natDigits n).asString = some (n : Int) := by
  have hprops := natDigits_props n
  obtain ⟨c, rest, hcr⟩ : ∃ c rest, natDigits n = c :: rest := by
    rcases hd : natDigits n with _ | ⟨c, rest⟩
    · exact absurd hd (natDigits_ne_nil n)
    · exact ⟨c, rest, rfl⟩
  have hc := hprops c (by rw [hcr]; simp)
  unfold jsParseInt
  have htl : ((natDigits n).asString).toList = natDigits n := rfl
  rw [htl, hcr, dropWhile_eq_self_of_head hc.2.1]
  dsimp only [List.headD_cons]
  have hif2 : ¬((decide (c = '-') || decide (c = '+')) = true) := by
    simp [hc.2.2.1, hc.2.2.2.1]
  have hall : ∀ x ∈ natDigits n, Char.isDigit x = true := fun x hx => (hprops x hx).1
  rw [if_neg hc.2.2.1, if_neg hif2, ← hcr, takeWhile_eq_self_of_all hall]
  rw [if_neg (natDigits_ne_nil n), digitsValue_natDigits]
  simp

lemma jsParseInt_jsNumToString (i : Int) :
    jsParseInt (jsNumToString i) = some i := by
  unfold jsNumToString
  by_cases hneg : i < 0
  · rw [if_pos hneg]
    have hprops := natDigits_props i.natAbs
    unfold jsParseInt
    have htl : (('-' :: natDigits i.natAbs).asString).toList = '-' :: natDigits i.natAbs := rfl
    rw [htl, dropWhile_eq_self_of_head (by decide)]
    dsimp only [List.headD_cons, List.tail_cons]
    have hif2 : (decide (('-' : Char) = '-') || decide (('-' : Char) = '+')) = true := by decide
    have hall : ∀ x ∈ natDigits i.natAbs, Char.isDigit x = true := fun x hx => (hprops x hx).1
    rw [if_pos (rfl : ('-' : Char) = '-'), if_pos hif2, takeWhile_eq_self_of_all hall]
    rw [if_neg (natDigits_ne_nil _), digitsValue_natDigits]
    have habs : -((i.natAbs : Nat) : Int) = i := by omega
    simp only [neg_mul, one_mul, habs]
  · rw [if_neg hneg]
    have h := jsParseInt_natDigits i.toNat
    rw [h]
    congr 1
    omega

lemma natDigits_no_colon (n : Nat) : ':' ∉ natDigits n := by
  intro h
  exact (natDigits_props n ':' h).2.2.2.2 rfl

/-! Parameter-list operation lemmas. -/

lemma getParam_delete_ne (ps : Params) (k k' : String) (h : k' ≠ k) :
    getParam (deleteParam ps k) k' = getParam ps k' := by
  induction ps with
  | nil => rfl
  | cons kv rest ih =>
    by_cases hk : kv.1 = k
    · have hne : ¬kv.1 = k' := fun he => h (he.symm.trans hk)
      simp [deleteParam, hk, getParam, hne, Ne.symm h, ih]
    · simp [deleteParam, hk, getParam, ih]

lemma getParam_delete_self (ps : Params) (k : String) :
    getParam (deleteParam ps k) k = none := by
  induction ps with
  | nil => rfl
  | cons kv rest ih =>
    by_cases hk : kv.1 = k
    · simp [deleteParam, hk, ih]
    · simp [deleteParam, hk, getParam, ih]

lemma getAll_delete_ne (ps : Params) (k k' : String) (h : k' ≠ k) :
    getAllParams (deleteParam ps k) k' = getAllParams ps k' := by
  induction ps with
  | nil => rfl
  | cons kv rest ih =>
    by_cases hk : kv.1 = k
    · have hne : ¬kv.1 = k' := fun he => h (he.symm.trans hk)
      simp [deleteParam, hk, getAllParams, hne, Ne.symm h, ih]
    · simp [deleteParam, hk, getAllParams, ih]

lemma getAll_delete_self (ps : Params) (k : String) :
    getAllParams (deleteParam ps k) k = [] := by
  induction ps with
  | nil => rfl
  | cons kv rest ih =>
    by_cases hk : kv.1 = k
    · simp [deleteParam, hk, ih]
    · simp [deleteParam, hk, getAllParams, ih]

lemma getParam_set_self (ps : Params) (k v : String) :
    getParam (setParam ps k v) k = some v := by
  induction ps with
  | nil => simp [setParam, getParam]
  | cons kv rest ih =>
    by_cases hk : kv.1 = k
    · simp [setParam, hk, getParam]
    · simp [setParam, hk, getParam, ih]

lemma getParam_set_ne (ps : Params) (k v k' : String) (h : k' ≠ k) :
    getParam (setParam ps k v) k' = getParam ps k' := by
  have hk' : ¬k = k' := fun he => h he.symm
  induction ps with
  | nil => simp [setParam, getParam, hk']
  | cons kv rest ih =>
    by_cases hk : kv.1 = k
    · subst hk
      have hne : ¬kv.1 = k' := hk'
      simp [setParam, getParam, hne]
      exact getParam_delete_ne rest kv.1 k' h
    · simp only [setParam, if_neg hk, getParam]
      by_cases h2 : kv.1 = k'
      · simp [h2]
      · simp [h2, ih]

lemma getAll_set_ne (ps : Params) (k v k' : String) (h : k' ≠ k) :
    getAllParams (setParam ps k v) k' = getAllParams ps k' := by
  have hk' : ¬k = k' := fun he => h he.symm
  induction ps with
  | nil => simp [setParam, getAllParams, hk']
  | cons kv rest ih =>
    by_cases hk : kv.1 = k
    · subst hk
      have hne : ¬kv.1 = k' := hk'
      simp [setParam, getAllParams, hne]
      exact getAll_delete_ne rest kv.1 k' h
    · simp only [setParam, if_neg hk, getAllParams]
      by_cases h2 : kv.1 = k'
      · simp [h2, ih]
      · simp [h2, ih]

lemma getParam_append_ne (ps : Params) (k v k' : String) (h : k' ≠ k) :
    getParam (appendParam ps k v) k' = getParam ps k' := by
  have hk' : ¬k = k' := fun he => h he.symm
  induction ps with
  | nil => simp [appendParam, getParam, hk']
  | cons kv rest ih =>
    by_cases h2 : kv.1 = k'
    · simp [appendParam, getParam, h2]
    · simp only [appendParam, List.cons_append, List.append_eq, getParam, if_neg h2] at ih ⊢
      exact ih

lemma getAll_append_self (ps : Params) (k v : String) :
    getAllParams (appendParam ps k v) k = getAllParams ps k ++ [v] := by
  induction ps with
  | nil => simp [appendParam, getAllParams]
  | cons kv rest ih =>
    by_cases h2 : kv.1 = k
    · simp only [appendParam, List.cons_append, List.append_eq, getAllParams, if_pos h2] at ih ⊢
      rw [ih]
    · simp only [appendParam, List.cons_append, List.append_eq, getAllParams, if_neg h2] at ih ⊢
      exact ih

lemma getAll_append_ne (ps : Params) (k v k' : String) (h : k' ≠ k) :
    getAllParams (appendParam ps k v) k' = getAllParams ps k' := by
  have hk' : ¬k = k' := fun he => h he.symm
  induction ps with
  | nil => simp [appendParam, getAllParams, hk']
  | cons kv rest ih =>
    by_cases h2 : kv.1 = k'
    · simp only [appendParam, List.cons_append, List.append_eq, getAllParams, if_pos h2] at ih ⊢
      rw [ih]
    · simp only [appendParam, List.cons_append, List.append_eq, getAllParams, if_neg h2] at ih ⊢
      exact ih

lemma getAll_putMulti_self (ps : Params) (k : String) (vs : List String) :
    getAllParams (putMulti ps k vs) k = vs := by
  unfold putMulti
  have hgen : ∀ (base : Params),
      getAllParams (vs.foldl (fun acc v => appendParam acc k v) base) k =
        getAllParams base k ++ vs := by
    induction vs with
    | nil => intro base; simp
    | cons v vrest ih =>
      intro base
      simp only [List.foldl_cons]
      rw [ih (appendParam base k v), getAll_append_self]
      simp
  rw [hgen (deleteParam ps k), getAll_delete_self]
  simp

lemma getAll_putMulti_ne (ps : Params) (k : String) (vs : List String) (k' : String)
    (h : k' ≠ k) :
    getAllParams (putMulti ps k vs) k' = getAllParams ps k' := by
  unfold putMulti
  have hgen : ∀ (base : Params),
      getAllParams (vs.foldl (fun acc v => appendParam acc k v) base) k' =
        getAllParams base k' := by
    induction vs with
    | nil => intro base; rfl
    | cons v vrest ih =>
      intro base
      simp only [List.foldl_cons]
      rw [ih (appendParam base k v), getAll_append_ne _ _ _ _ h]
  rw [hgen (deleteParam ps k), getAll_delete_ne _ _ _ h]

lemma getParam_putMulti_ne (ps : Params) (k : String) (vs : List String) (k' : String)
    (h : k' ≠ k) :
    getParam (putMulti ps k vs) k' = getParam ps k' := by
  unfold putMulti
  have hgen : ∀ (base : Params),
      getParam (vs.foldl (fun acc v => appendParam acc k v) base) k' =
        getParam base k' := by
    induction vs with
    | nil => intro base; rfl
    | cons v vrest ih =>
      intro base
      simp only [List.foldl_cons]
      rw [ih (appendParam base k v), getParam_append_ne _ _ _ _ h]
  rw [hgen (deleteParam ps k), getParam_delete_ne _ _ _ h]

/-! What each key of the serialized parameter list holds. -/

lemma serialize_getParam_q (state : SearchState) (ps : Params) (hq : state.query ≠ "") :
    getParam (serializeStateToUrl state ps) "q" = some state.query := by
  unfold serializeStateToUrl
  rw [if_pos hq]
  by_cases hqk : jsTruthy state.quickFilter
  · rw [if_pos hqk, getParam_set_ne _ _ _ _ (by decide),
      getParam_putMulti_ne _ _ _ _ (by decide), getParam_putMulti_ne _ _ _ _ (by decide),
      getParam_putMulti_ne _ _ _ _ (by decide), getParam_putMulti_ne _ _ _ _ (by decide),
      getParam_putMulti_ne _ _ _ _ (by decide), getParam_set_ne _ _ _ _ (by decide),
      getParam_set_self]
  · rw [if_neg hqk, getParam_delete_ne _ _ _ (by decide),
      getParam_putMulti_ne _ _ _ _ (by decide), getParam_putMulti_ne _ _ _ _ (by decide),
      getParam_putMulti_ne _ _ _ _ (by decide), getParam_putMulti_ne _ _ _ _ (by decide),
      getParam_putMulti_ne _ _ _ _ (by decide), getParam_set_ne _ _ _ _ (by decide),
      getParam_set_self]

lemma serialize_getParam_years (state : SearchState) (ps : Params) :
    getParam (serializeStateToUrl state ps) "years" =
      some (jsNumToString state.years.1 ++ ":" ++ jsNumToString state.years.2) := by
  unfold serializeStateToUrl
  by_cases hqk : jsTruthy state.quickFilter
  · rw [if_pos hqk, getParam_set_ne _ _ _ _ (by decide),
      getParam_putMulti_ne _ _ _ _ (by decide), getParam_putMulti_ne _ _ _ _ (by decide),
      getParam_putMulti_ne _ _ _ _ (by decide), getParam_putMulti_ne _ _ _ _ (by decide),
      getParam_putMulti_ne _ _ _ _ (by decide), getParam_set_self]
  · rw [if_neg hqk, getParam_delete_ne _ _ _ (by decide),
      getParam_putMulti_ne _ _ _ _ (by decide), getParam_putMulti_ne _ _ _ _ (by decide),
      getParam_putMulti_ne _ _ _ _ (by decide), getParam_putMulti_ne _ _ _ _ (by decide),
      getParam_putMulti_ne _ _ _ _ (by decide), getParam_set_self]

lemma serialize_getAll_domain (state : SearchState) (ps : Params) :
    getAllParams (serializeStateToUrl state ps) "domain" = state.domains := by
  unfold serializeStateToUrl
  by_cases hqk : jsTruthy state.quickFilter
  · rw [if_pos hqk, getAll_set_ne _ _ _ _ (by decide),
      getAll_putMulti_ne _ _ _ _ (by decide), getAll_putMulti_ne _ _ _ _ (by decide),
      getAll_putMulti_ne _ _ _ _ (by decide), getAll_putMulti_ne _ _ _ _ (by decide),
      getAll_putMulti_self]
  · rw [if_neg hqk, getAll_delete_ne _ _ _ (by decide),
      getAll_putMulti_ne _ _ _ _ (by decide), getAll_putMulti_ne _ _ _ _ (by decide),
      getAll_putMulti_ne _ _ _ _ (by decide), getAll_putMulti_ne _ _ _ _ (by decide),
      getAll_putMulti_self]

lemma serialize_getAll_setting (state : SearchState) (ps : Params) :
    getAllParams (serializeStateToUrl state ps) "setting" = state.settings := by
  unfold serializeStateToUrl
  by_cases hqk : jsTruthy state.quickFilter
  · rw [if_pos hqk, getAll_set_ne _ _ _ _ (by decide),
      getAll_putMulti_ne _ _ _ _ (by decide), getAll_putMulti_ne _ _ _ _ (by decide),
      getAll_putMulti_ne _ _ _ _ (by decide), getAll_putMulti_self]
  · rw [if_neg hqk, getAll_delete_ne _ _ _ (by decide),
      getAll_putMulti_ne _ _ _ _ (by decide), getAll_putMulti_ne _ _ _ _ (by decide),
      getAll_putMulti_ne _ _ _ _ (by decide), getAll_putMulti_self]

lemma serialize_getAll_design (state : SearchState) (ps : Params) :
    getAllParams (serializeStateToUrl state ps) "design" = state.designs := by
  unfold serializeStateToUrl
  by_cases hqk : jsTruthy state.quickFilter
  · rw [if_pos hqk, getAll_set_ne _ _ _ _ (by decide),
      getAll_putMulti_ne _ _ _ _ (by decide), getAll_putMulti_ne _ _ _ _ (by decide),
      getAll_putMulti_self]
  · rw [if_neg hqk, getAll_delete_ne _ _ _ (by decide),
      getAll_putMulti_ne _ _ _ _ (by decide), getAll_putMulti_ne _ _ _ _ (by decide),
      getAll_putMulti_self]

lemma serialize_getAll_country (state : SearchState) (ps : Params) :
    getAllParams (serializeStateToUrl state ps) "country" = state.countries := by
  unfold serializeStateToUrl
  by_cases hqk : jsTruthy state.quickFilter
  · rw [if_pos hqk, getAll_set_ne _ _ _ _ (by decide),
      getAll_putMulti_ne _ _ _ _ (by decide), getAll_putMulti_self]
  · rw [if_neg hqk, getAll_delete_ne _ _ _ (by decide),
      getAll_putMulti_ne _ _ _ _ (by decide), getAll_putMulti_self]

lemma serialize_getAll_journal (state : SearchState) (ps : Params) :
    getAllParams (serializeStateToUrl state ps) "journal" = state.journals := by
  unfold serializeStateToUrl
  by_cases hqk : jsTruthy state.quickFilter
  · rw [if_pos hqk, getAll_set_ne _ _ _ _ (by decide), getAll_putMulti_self]
  · rw [if_neg hqk, getAll_delete_ne _ _ _ (by decide), getAll_putMulti_self]

lemma serialize_getParam_quick_truthy (state : SearchState) (ps : Params)
    (hqk : jsTruthy state.quickFilter = true) :
    getParam (serializeStateToUrl state ps) "quick" = some (state.quickFilter.getD "") := by
  unfold serializeStateToUrl
  rw [if_pos hqk, getParam_set_self]

lemma serialize_getParam_quick_falsy (state : SearchState) (ps : Params)
    (hqk : ¬jsTruthy state.quickFilter = true) :
    getParam (serializeStateToUrl state ps) "quick" = none := by
  unfold serializeStateToUrl
  rw [if_neg hqk, getParam_delete_self]

lemma jsNumToString_no_colon (i : Int) :
    ∀ c ∈ (jsNumToString i).toList, (fun c => decide (c = ':')) c = false := by
  unfold jsNumToString
  split
  · intro c hc
    have hc' : c ∈ '-' :: natDigits i.natAbs := hc
    rcases List.mem_cons.mp hc' with rfl | hc''
    · decide
    · simp [(natDigits_props i.natAbs c hc'').2.2.2.2]
  · intro c hc
    have hc' : c ∈ natDigits i.toNat := hc
    simp [(natDigits_props i.toNat c hc').2.2.2.2]

lemma yearsRaw_toList (a b : Int) :
    (jsNumToString a ++ ":" ++ jsNumToString b).toList =
      (jsNumToString a).toList ++ ':' :: (jsNumToString b).toList := by
  show ((jsNumToString a).toList ++ [':']) ++ (jsNumToString b).toList = _
  rw [List.append_assoc]
  rfl

lemma yearsRaw_split (a b : Int) :
    splitOnP (fun c => decide (c = ':'))
        (jsNumToString a ++ ":" ++ jsNumToString b).toList =
      [(jsNumToString a).toList, (jsNumToString b).toList] := by
  rw [yearsRaw_toList,
    splitOnP_append ((jsNumToString b).toList) (by decide) (jsNumToString_no_colon a),
    splitOnP_of_not_mem (jsNumToString_no_colon b)]

lemma yearsRaw_ne_empty (a b : Int) :
    jsNumToString a ++ ":" ++ jsNumToString b ≠ "" := by
  intro h
  have h2 := congrArg String.toList h
  rw [yearsRaw_toList] at h2
  simp at h2

/-- C5 amended: the URL-state round trip is lossless for every starting URL and
every pair of defaults, provided the query is non-empty, every facet list is
non-empty and contains no empty string, and the quick filter is either a
non-empty string or is absent with the defaults' quick filter also absent. -/
theorem C5_roundtrip_amended (state : SearchState) (ps : Params) (defaults : SearchState)
    (hq : state.query ≠ "")
    (hdom : state.domains ≠ []) (hdomv : ∀ v ∈ state.domains, v ≠ "")
    (hset : state.settings ≠ []) (hsetv : ∀ v ∈ state.settings, v ≠ "")
    (hdes : state.designs ≠ []) (hdesv : ∀ v ∈ state.designs, v ≠ "")
    (hcou : state.countries ≠ []) (hcouv : ∀ v ∈ state.countries, v ≠ "")
    (hjou : state.journals ≠ []) (hjouv : ∀ v ∈ state.journals, v ≠ "")
    (hquick : (∃ s, state.quickFilter = some s ∧ s ≠ "") ∨
      (state.quickFilter = none ∧ defaults.quickFilter = none)) :
    parseStateFromUrl (serializeStateToUrl state ps) defaults = state := by
  have hfilter : ∀ (l : List String), (∀ v ∈ l, v ≠ "") →
      l.filter (fun v => v ≠ "") = l := by
    intro l hl
    rw [List.filter_eq_self]
    intro a ha
    simpa using hl a ha
  unfold parseStateFromUrl
  dsimp only
  rw [serialize_getParam_q state ps hq, serialize_getParam_years state ps,
    serialize_getAll_domain state ps, serialize_getAll_setting state ps,
    serialize_getAll_design state ps, serialize_getAll_country state ps,
    serialize_getAll_journal state ps]
  rw [hfilter _ hdomv, hfilter _ hsetv, hfilter _ hdesv, hfilter _ hcouv, hfilter _ hjouv]
  rw [if_pos hdom, if_pos hset, if_pos hdes, if_pos hcou, if_pos hjou]
  have hyears : (if (jsNumToString state.years.1 ++ ":" ++ jsNumToString state.years.2) = ""
      then defaults.years
      else
        let parts := splitOnP (fun c => decide (c = ':'))
          (jsNumToString state.years.1 ++ ":" ++ jsNumToString state.years.2).toList
        match jsParseInt ((parts.headD []).asString),
              jsParseInt (((parts.get? 1).getD []).asString) with
        | some a, some b => (a, b)
        | _, _ => defaults.years) = state.years := by
    rw [if_neg (yearsRaw_ne_empty _ _)]
    dsimp only
    rw [yearsRaw_split]
    show (match jsParseInt (((jsNumToString state.years.1).toList).asString),
        jsParseInt (((jsNumToString state.years.2).toList).asString) with
      | some a, some b => (a, b)
      | _, _ => defaults.years) = state.years
    have h1 : ((jsNumToString state.years.1).toList).asString = jsNumToString state.years.1 := rfl
    have h2 : ((jsNumToString state.years.2).toList).asString = jsNumToString state.years.2 := rfl
    rw [h1, h2, jsParseInt_jsNumToString, jsParseInt_jsNumToString]
  rcases hquick with ⟨s, hs, hsne⟩ | ⟨hs, hds⟩
  · have hqk : jsTruthy state.quickFilter = true := by simp [jsTruthy, hs, hsne]
    rw [serialize_getParam_quick_truthy state ps hqk]
    cases state with
    | mk q yrs doms sets des cou jou quick =>
      simp only at hs
      subst hs
      simp_all [SearchState.mk.injEq, hyears]
  · have hqk : ¬jsTruthy state.quickFilter = true := by simp [jsTruthy, hs]
    rw [serialize_getParam_quick_falsy state ps hqk]
    cases state with
    | mk q yrs doms sets des cou jou quick =>
      simp only at hs
      subst hs
      simp_all [SearchState.mk.injEq, hyears]

/-- A state satisfying the claim's preconditions (non-empty query, non-empty
facet lists) with no quick filter selected. -/
def roundtripState : SearchState :=
  { query := "a", years := (1, 2), domains := ["X"], settings := ["S"],
    designs := ["D"], countries := ["C"], journals := ["J"], quickFilter := none }

/-- Defaults that carry a quick filter. -/
def roundtripDefaults : SearchState :=
  { query := "", years := (0, 0), quickFilter := some "Cognitive" }

unseal natDigits in
/-- C5 counterexample: for a state meeting the claim's preconditions but with
no quick filter, parsing the serialized URL against defaults that do carry a
quick filter does not reproduce the state (the absent `quick` parameter
deserializes to the defaults' quick filter). -/
theorem C5_counterexample :
    roundtripState.query ≠ "" ∧
    roundtripState.domains ≠ [] ∧ roundtripState.settings ≠ [] ∧
    roundtripState.designs ≠ [] ∧ roundtripState.countries ≠ [] ∧
    roundtripState.journals ≠ [] ∧
    parseStateFromUrl (serializeStateToUrl roundtripState []) roundtripDefaults ≠
      roundtripState := by
  refine ⟨by decide, by decide, by decide, by decide, by decide, by decide, ?_⟩
  decide

/-- A state whose round trip the amended claim covers. -/
def losslessState : SearchState :=
  { query := "ohca", years := (1990, 2024), domains := ["Cognitive"],
    settings := ["OHCA"], designs := ["Randomized controlled trial"],
    countries := ["Sweden"], journals := ["Resuscitation"], quickFilter := none }

/-- Defaults with no quick filter. -/
def losslessDefaults : SearchState :=
  { query := "", years := (0, 0) }

/-- Witness for C5's amended theorem at a concrete state. -/
theorem C5_roundtrip_amended_witness :
    parseStateFromUrl (serializeStateToUrl losslessState []) losslessDefaults =
      losslessState :=
  C5_roundtrip_amended losslessState [] losslessDefaults (by decide)
    (by decide) (by decide) (by decide) (by decide) (by decide) (by decide)
    (by decide) (by decide) (by decide) (by decide) (Or.inr ⟨rfl, rfl⟩)

end Spec2Proof
